import Mathlib

/-!
Verification of the picture_frame image-preparation pipeline.

The source under scrutiny is `src/image_processor.py` (compositing, enhancement
and four dithering variants) and `src/transfer.py` (the processed-image cache).
Images are shallowly embedded as lists of rows of rational pixel values; the
float arithmetic of the numpy dithering code (sums of dyadic rationals) is
represented exactly by rationals, while the aspect-ratio arithmetic of the
resize path — where rounding is observable in the truncated dimensions — is
modelled bit-exactly as IEEE-754 double precision (`roundF`, round to nearest,
ties to even, for the normal-range magnitudes that dimension ratios produce).
Library routines of Pillow that the source calls but whose code is not part of
this repository (mode-1 conversion, resampling, pasting, grayscale conversion)
are modelled from their documented behaviour and from the specification, and
are marked as such in their doc comments.
-/

namespace PictureFrame

/-- A raster image: a list of rows, each row a list of rational pixel values.
This embeds both PIL grayscale images and the numpy float array of
`_atkinson_dither`. -/
abbrev Grid := List (List ℚ)

/-- Height of a grid: the number of rows (numpy `shape[0]`). -/
def gridH (g : Grid) : Nat := g.length

/-- Width of a grid: the length of the first row (numpy `shape[1]` for a
rectangular array). -/
def gridW (g : Grid) : Nat := (g.getD 0 []).length

/-- Read pixel at row `y`, column `x` (`img_array[y, x]`); default 0 outside. -/
def getPx (g : Grid) (y x : Nat) : ℚ := (g.getD y []).getD x 0

/-- Overwrite pixel at row `y`, column `x` (`img_array[y, x] = v`). -/
def setPx (g : Grid) (y x : Nat) (v : ℚ) : Grid :=
  g.set y ((g.getD y []).set x v)

/-- Add `v` to pixel at row `y`, column `x` (`img_array[y, x] += v`). -/
def addPx (g : Grid) (y x : Nat) (v : ℚ) : Grid :=
  setPx g y x (getPx g y x + v)

/-- A grid is rectangular when every row has the common width.  numpy arrays
obtained from a PIL image are always rectangular. -/
def Rect (g : Grid) : Prop := ∀ r ∈ g, r.length = gridW g

/-- Quantization to the nearest of 0 and 255, used by the modelled
Floyd-Steinberg conversion: 255 exactly when the value exceeds the midpoint. -/
def fsQuant (v : ℚ) : ℚ := if 2 * v > 255 then 255 else 0

/-- One pixel step of Floyd-Steinberg error diffusion at row `y`, column `x`:
quantize, then push 7/16, 3/16, 5/16, 1/16 of the residual to the unvisited
neighbours, skipping out-of-range ones. -/
def fsStep (w h : Nat) (a : Grid) (y x : Nat) : Grid :=
  let old := getPx a y x
  let nv := fsQuant old
  let a1 := setPx a y x nv
  let e := old - nv
  let a2 := if x + 1 < w then addPx a1 y (x + 1) (e * 7 / 16) else a1
  if y + 1 < h then
    let a3 := if 1 ≤ x then addPx a2 (y + 1) (x - 1) (e * 3 / 16) else a2
    let a4 := addPx a3 (y + 1) x (e * 5 / 16)
    if x + 1 < w then addPx a4 (y + 1) (x + 1) (e * 1 / 16) else a4
  else a2

/-- Modelled from the spec: PIL `Image.convert` to mode `1` with
`dither=Image.FLOYDSTEINBERG` (also the documented default when no dither
argument is given).  Pillow's own C implementation is not part of this
repository; the spec describes the classic row-major Floyd-Steinberg error
diffusion with the canonical kernel, which is what is embedded here. -/
def pilConvert1FS (g : Grid) : Grid :=
  let h := gridH g
  let w := gridW g
  (List.range h).foldl
    (fun a y => (List.range w).foldl (fun b x => fsStep w h b y x) a) g

/-- Modelled from the spec: PIL `Image.convert` to mode `1` with
`dither=Image.NONE`; per the PIL documentation all values larger than 127
become 255, all others 0. -/
def pilConvert1None (g : Grid) : Grid :=
  g.map (List.map (fun v => if v > 127 then (255 : ℚ) else 0))

/-- The 4x4 Bayer threshold matrix used by the modelled ordered dither. -/
def bayer4 : List (List ℚ) := [[0, 8, 2, 10], [12, 4, 14, 6], [3, 11, 1, 9], [15, 7, 13, 5]]

/-- Threshold of the tiled 4x4 Bayer matrix at row `y`, column `x`. -/
def bayerT (y x : Nat) : ℚ := 16 * ((bayer4.getD (y % 4) []).getD (x % 4) 0) + 8

/-- Modelled from the spec: PIL `Image.convert` to mode `1` with
`dither=Image.ORDERED`, described by the spec as pattern dithering against a
tiled Bayer matrix. -/
def pilConvert1Ordered (g : Grid) : Grid :=
  (List.range (gridH g)).map (fun y =>
    (List.range (gridW g)).map (fun x =>
      if getPx g y x > bayerT y x then (255 : ℚ) else 0))

/-- One visited pixel of `ImageProcessor._atkinson_dither`'s nested loop:
quantize with threshold `old > 128`, set the pixel, and add one eighth of the
residual to the six neighbours under the guards written in the source. -/
def atkStep (w h : Nat) (a : Grid) (y x : Nat) : Grid :=
  let old := getPx a y x
  let nv : ℚ := if old > 128 then 255 else 0
  let a1 := setPx a y x nv
  let e := (old - nv) / 8
  let a2 := if x + 1 < w then addPx a1 y (x + 1) e else a1
  let a3 := if x + 2 < w then addPx a2 y (x + 2) e else a2
  let a4 :=
    if y + 1 < h then
      let b1 := if 1 ≤ x then addPx a3 (y + 1) (x - 1) e else a3
      let b2 := addPx b1 (y + 1) x e
      if x + 1 < w then addPx b2 (y + 1) (x + 1) e else b2
    else a3
  if y + 2 < h then addPx a4 (y + 2) x e else a4

/-- The double loop of `_atkinson_dither`: `for y in range(height - 2)` and
`for x in range(1, width - 2)` over the float array. -/
def atkinsonLoop (g : Grid) : Grid :=
  let h := gridH g
  let w := gridW g
  (List.range (h - 2)).foldl
    (fun a y => (List.range' 1 (w - 3)).foldl (fun b x => atkStep w h b y x) a) g

/-- Clipping to [0, 255] followed by conversion to `uint8`
(`np.clip(img_array, 0, 255).astype('uint8')`); the cast truncates the
fractional part, which on the clipped nonnegative values is the floor. -/
def clipByte (v : ℚ) : ℚ := ((⌊max 0 (min 255 v)⌋ : ℤ) : ℚ)

/-- `ImageProcessor._atkinson_dither`: run the diffusion loop on the float
array, clip and truncate to bytes, and convert to mode `1` with PIL's default
dither (Floyd-Steinberg). -/
def _atkinson_dither (g : Grid) : Grid :=
  pilConvert1FS ((atkinsonLoop g).map (List.map clipByte))

/-- `ImageProcessor._apply_dithering`: dispatch on the mode string; the second
component models the `logger.warning` emitted on the unknown-mode fallback
(empty list when no warning is logged). -/
def _apply_dithering (mode : String) (g : Grid) : Grid × List String :=
  if mode = "floyd-steinberg" then (pilConvert1FS g, [])
  else if mode = "atkinson" then (_atkinson_dither g, [])
  else if mode = "ordered" then (pilConvert1Ordered g, [])
  else if mode = "threshold" then (pilConvert1None g, [])
  else (pilConvert1FS g, ["Unknown dither mode, using floyd-steinberg"])

/-! Claim-level descriptions of the Atkinson ditherer, used for claim C2.
Both follow the wording of the claim (visit pixels in raster order, quantize,
add one eighth of the residual to the six neighbours whenever each lies
within bounds); they differ from each other in the visit set, the quantizer
and the treatment of the unvisited pixels. -/

/-- The six Atkinson neighbour coordinates of `(y, x)`, as integers so that
the left-down neighbour of column 0 falls out of bounds. -/
def atkNbrs (y x : Nat) : List (Int × Int) :=
  [(y, x + 1), (y, x + 2), (y + 1, (x : Int) - 1), (y + 1, x), (y + 1, x + 1), (y + 2, x)]

/-- One visited pixel as described by claim C2 as stated: quantize to the
nearest of 0 and 255, and add an eighth of the residual to each of the six
neighbours that lies within bounds. -/
def atkClaimStep (w h : Nat) (a : Grid) (y x : Nat) : Grid :=
  let old := getPx a y x
  let nv := fsQuant old
  let a1 := setPx a y x nv
  let e := (old - nv) / 8
  ((atkNbrs y x).filter
      (fun q => decide (0 ≤ q.2) && decide (q.1 < (h : Int)) && decide (q.2 < (w : Int)))).foldl
    (fun b q => addPx b q.1.toNat q.2.toNat e) a1

/-- The visit set of claim C2 as stated: raster order, skipping exactly the
last two columns and the last two rows. -/
def atkClaimVisits (w h : Nat) : List (Nat × Nat) :=
  (List.range (h - 2)).flatMap (fun y => (List.range (w - 2)).map (fun x => (y, x)))

/-- The Atkinson ditherer exactly as claim C2 states it: visit the raster
minus the final two rows and columns, diffusing per `atkClaimStep`, then
quantize every pixel left unvisited by a plain threshold with no diffusion
(re-quantizing a visited pixel, already 0 or 255, changes nothing). -/
def atkinsonClaimSpec (g : Grid) : Grid :=
  let h := gridH g
  let w := gridW g
  (((atkClaimVisits w h).foldl (fun a q => atkClaimStep w h a q.1 q.2) g).map
    (List.map fsQuant))

/-- One visited pixel as described by the amended claim: quantize to 255
exactly when the current value exceeds 128, and add an eighth of the residual
to each of the six neighbours that lies within bounds. -/
def atkAmendStep (w h : Nat) (a : Grid) (y x : Nat) : Grid :=
  let old := getPx a y x
  let nv : ℚ := if old > 128 then 255 else 0
  let a1 := setPx a y x nv
  let e := (old - nv) / 8
  ((atkNbrs y x).filter
      (fun q => decide (0 ≤ q.2) && decide (q.1 < (h : Int)) && decide (q.2 < (w : Int)))).foldl
    (fun b q => addPx b q.1.toNat q.2.toNat e) a1

/-- The visit set of the amended claim: raster order over all pixels except
the first column, the last two columns and the last two rows. -/
def atkAmendVisits (w h : Nat) : List (Nat × Nat) :=
  (List.range (h - 2)).flatMap (fun y =>
    ((List.range w).filter (fun x => decide (1 ≤ x) && decide (x + 2 < w))).map (fun x => (y, x)))

/-- The Atkinson ditherer as described by the amended claim C2: visit the
raster minus the first column and the final two rows and columns, diffusing
per `atkAmendStep`; afterwards clamp every value to [0, 255], truncate to an
integer, and let the final mode-1 conversion (Floyd-Steinberg by default)
quantize whatever is not yet binary. -/
def atkinsonAmendedSpec (g : Grid) : Grid :=
  let h := gridH g
  let w := gridW g
  pilConvert1FS
    (((atkAmendVisits w h).foldl (fun a q => atkAmendStep w h a q.1 q.2) g).map
      (List.map clipByte))

/-! MD5, used by `ImageTransfer._get_cache_filename`
(`hashlib.md5(source_name.encode()).hexdigest()[:8]`).  All 32-bit words are
embedded as naturals reduced modulo 2^32. -/

/-- The 64 round constants of MD5 (floor(2^32 * abs(sin(i + 1)))). -/
def md5K : List Nat :=
  [0xd76aa478, 0xe8c7b756, 0x242070db, 0xc1bdceee,
   0xf57c0faf, 0x4787c62a, 0xa8304613, 0xfd469501,
   0x698098d8, 0x8b44f7af, 0xffff5bb1, 0x895cd7be,
   0x6b901122, 0xfd987193, 0xa679438e, 0x49b40821,
   0xf61e2562, 0xc040b340, 0x265e5a51, 0xe9b6c7aa,
   0xd62f105d, 0x02441453, 0xd8a1e681, 0xe7d3fbc8,
   0x21e1cde6, 0xc33707d6, 0xf4d50d87, 0x455a14ed,
   0xa9e3e905, 0xfcefa3f8, 0x676f02d9, 0x8d2a4c8a,
   0xfffa3942, 0x8771f681, 0x6d9d6122, 0xfde5380c,
   0xa4beea44, 0x4bdecfa9, 0xf6bb4b60, 0xbebfbc70,
   0x289b7ec6, 0xeaa127fa, 0xd4ef3085, 0x04881d05,
   0xd9d4d039, 0xe6db99e5, 0x1fa27cf8, 0xc4ac5665,
   0xf4292244, 0x432aff97, 0xab9423a7, 0xfc93a039,
   0x655b59c3, 0x8f0ccc92, 0xffeff47d, 0x85845dd1,
   0x6fa87e4f, 0xfe2ce6e0, 0xa3014314, 0x4e0811a1,
   0xf7537e82, 0xbd3af235, 0x2ad7d2bb, 0xeb86d391]

/-- The per-round left-rotation amounts of MD5, one quadruple per round group. -/
def md5S : List Nat := [7, 12, 17, 22, 5, 9, 14, 20, 4, 11, 16, 23, 6, 10, 15, 21]

/-- 32-bit left rotation on naturals below 2^32. -/
def rotl32 (n s : Nat) : Nat :=
  ((n <<< s) ||| (n >>> (32 - s))) % 4294967296

/-- Addition modulo 2^32. -/
def madd (a b : Nat) : Nat := (a + b) % 4294967296

/-- Bitwise complement within 32 bits (for inputs below 2^32). -/
def mnot (a : Nat) : Nat := 4294967295 - a

/-- The MD5 mixing function of round `i` applied to `b`, `c`, `d`. -/
def md5Mix (i b c d : Nat) : Nat :=
  if i < 16 then (b &&& c) ||| (mnot b &&& d)
  else if i < 32 then (d &&& b) ||| (mnot d &&& c)
  else if i < 48 then b ^^^ c ^^^ d
  else c ^^^ (b ||| mnot d)

/-- The message-word index used by MD5 round `i`. -/
def md5Idx (i : Nat) : Nat :=
  if i < 16 then i
  else if i < 32 then (5 * i + 1) % 16
  else if i < 48 then (3 * i + 5) % 16
  else (7 * i) % 16

/-- One round of the MD5 compression function over the 16 message words `m`. -/
def md5Round (m : List Nat) (st : Nat × Nat × Nat × Nat) (i : Nat) :
    Nat × Nat × Nat × Nat :=
  let a := st.1
  let b := st.2.1
  let c := st.2.2.1
  let d := st.2.2.2
  let f := md5Mix i b c d
  let t := madd (madd (madd a f) (md5K.getD i 0)) (m.getD (md5Idx i) 0)
  let s := md5S.getD (i / 16 * 4 + i % 4) 0
  (d, madd b (rotl32 t s), b, c)

/-- Compress one 64-byte block (given as 16 little-endian words) into the
running state. -/
def md5Block (st : Nat × Nat × Nat × Nat) (m : List Nat) :
    Nat × Nat × Nat × Nat :=
  let r := (List.range 64).foldl (md5Round m) st
  (madd st.1 r.1, madd st.2.1 r.2.1, madd st.2.2.1 r.2.2.1, madd st.2.2.2 r.2.2.2)

/-- Structural worker for `chunksOf`: the first argument is fuel, in our use
the length of the list, which bounds the number of chunks. -/
def chunksOfAux (n : Nat) : Nat → List α → List (List α)
  | 0, _ => []
  | _, [] => []
  | fuel + 1, a :: l => (a :: l).take n :: chunksOfAux n fuel (l.drop (n - 1))

/-- Split a list into chunks of `n` elements (`n` positive, length a multiple
of `n` in our use). -/
def chunksOf (n : Nat) (l : List α) : List (List α) :=
  if n = 0 then [] else chunksOfAux n l.length l

/-- Assemble a little-endian 32-bit word from four bytes. -/
def leWord (b0 b1 b2 b3 : Nat) : Nat := b0 + 256 * b1 + 65536 * b2 + 16777216 * b3

/-- Convert a list of bytes (length a multiple of 4) into little-endian words. -/
def leWords (l : List Nat) : List Nat :=
  (chunksOf 4 l).map (fun c => leWord (c.getD 0 0) (c.getD 1 0) (c.getD 2 0) (c.getD 3 0))

/-- MD5 padding: append 0x80, then zeros to 56 mod 64, then the bit length as
a little-endian 64-bit quantity. -/
def md5Pad (msg : List Nat) : List Nat :=
  let n := msg.length
  let zeros := (55 + 64 - n % 64) % 64
  let bits := (8 * n) % 18446744073709551616
  msg ++ [0x80] ++ List.replicate zeros 0 ++
    (List.range 8).map (fun i => bits / (256 ^ i) % 256)

/-- Serialize a 32-bit word into four little-endian bytes. -/
def wordBytes (w : Nat) : List Nat := [w % 256, w / 256 % 256, w / 65536 % 256, w / 16777216 % 256]

/-- The sixteen lowercase hexadecimal digits, 0 to 9 then a to f. -/
def hexDigits : List Char := (List.range 16).map Nat.digitChar

/-- Lowercase hexadecimal digit for a value below 16. -/
def hexChar (n : Nat) : Char := hexDigits.getD n '0'

/-- The MD5 digest of a byte string, as 16 bytes. -/
def md5Bytes (msg : List Nat) : List Nat :=
  let st := (leWords (md5Pad msg)) |> chunksOf 16 |>.foldl md5Block
    (0x67452301, 0xefcdab89, 0x98badcfe, 0x10325476)
  wordBytes st.1 ++ wordBytes st.2.1 ++ wordBytes st.2.2.1 ++ wordBytes st.2.2.2

/-- The UTF-8 bytes of a string (`str.encode()`). -/
def strBytes (s : String) : List Nat := s.toUTF8.toList.map (fun b => b.toNat)

/-- `hashlib.md5(s.encode()).hexdigest()`: the 32-character lowercase
hexadecimal MD5 digest of a string. -/
def md5Hex (s : String) : String :=
  String.mk ((md5Bytes (strBytes s)).flatMap (fun b => [hexChar (b / 16), hexChar (b % 16)]))

/-! Path handling: the slice of `pathlib.PurePath` used by the cache
(`source_path.name` and `source_path.stem`). -/

/-- The final component of a POSIX path (`pathlib.Path.name`); like pathlib,
trailing and repeated separators are ignored (single-dot components are not
normalized, which no claim depends on). -/
def pathName (p : String) : String :=
  (((p.splitOn "/").filter (fun s => s != "")).getLastD "")

/-- Index of the last occurrence of a dot in a character list, if any. -/
def lastDotPos (cs : List Char) : Option Nat :=
  ((List.range cs.length).filter (fun i => cs.getD i ' ' = '.')).getLast?

/-- The stem of a file name: the name minus its final suffix, where a suffix
starts at the last dot, provided that dot is neither the first nor the last
character (`pathlib.PurePath.stem`). -/
def stemOfName (n : String) : String :=
  let cs := n.data
  match lastDotPos cs with
  | none => n
  | some i => if 0 < i ∧ i + 1 < cs.length then String.mk (cs.take i) else n

/-- `ImageTransfer._get_cache_filename`: the stem of the source path, an
underscore, the first eight hex digits of the MD5 of the source file name, and
the `.png` extension. -/
def _get_cache_filename (p : String) : String :=
  stemOfName (pathName p) ++ "_" ++ (md5Hex (pathName p)).take 8 ++ ".png"

/-! The compositor (`ImageProcessor._resize_maintain_aspect`) and the
surrounding pipeline (`ImageProcessor.process_image`). -/

/-- An RGB pixel. -/
abbrev RGB := ℚ × ℚ × ℚ

/-- A color raster: rows of RGB pixels. -/
abbrev CGrid := List (List RGB)

/-- Height of a color grid. -/
def cheight (g : CGrid) : Nat := g.length

/-- Width of a color grid. -/
def cwidth (g : CGrid) : Nat := (g.getD 0 []).length

/-- Read an RGB pixel, white outside the grid. -/
def getCPx (g : CGrid) (y x : Nat) : RGB := (g.getD y []).getD x (255, 255, 255)

/-- The Python exceptions that the pipeline and cache can raise. -/
inductive PyErr where
  | fileNotFound
  | unidentifiedImage
  | zeroDivision
  | valueError
  | osError
  deriving DecidableEq, Repr

/-- Round the nonnegative rational `n / d` to the nearest integer, ties to
even (the rounding of IEEE-754 arithmetic), for positive `d`. -/
def nearestEven (n d : Nat) : Nat :=
  let q := n / d
  let r := n % d
  if 2 * r < d then q
  else if d < 2 * r then q + 1
  else if q % 2 = 0 then q else q + 1

/-- Structural worker for `log2F`: the first argument is fuel, in our use at
least the argument itself, which bounds the recursion depth. -/
def log2Aux : Nat → Nat → Nat
  | 0, _ => 0
  | fuel + 1, n => if n < 2 then 0 else log2Aux fuel (n / 2) + 1

/-- Floor of the base-2 logarithm, as a structural function; equal to
`Nat.log2`. -/
def log2F (n : Nat) : Nat := log2Aux n n

/-- Floor of the base-2 logarithm of `a / b`, for positive `a` and `b`. -/
def flog2 (a b : Nat) : Int :=
  let e : Int := (log2F a : Int) - (log2F b : Int)
  if a * 2 ^ log2F b < b * 2 ^ log2F a then e - 1 else e

/-- Modelled from IEEE 754: a positive rational rounded to the nearest
binary64 value (53 significant bits, round to nearest, ties to even), for the
normal-range magnitudes produced by ratios and products of image dimensions.
CPython computes `int / int` true division, `int`-to-`float` conversion and
`float` division and multiplication as the correctly rounded double of the
exact result, which on those magnitudes is this function. -/
def roundF (q : ℚ) : ℚ :=
  if q ≤ 0 then 0 else
  let a := q.num.toNat
  let b := q.den
  let e := flog2 a b
  if e ≤ 52 then
    Rat.divInt (Int.ofNat (nearestEven (a * 2 ^ (52 - e).toNat) b))
      (Int.ofNat (2 ^ (52 - e).toNat))
  else
    Rat.divInt (Int.ofNat (nearestEven a (b * 2 ^ (e - 52).toNat) * 2 ^ (e - 52).toNat)) 1

/-- The resized dimensions computed by `_resize_maintain_aspect` from the
source width `w`, source height `h` and the target `W` by `H`, in the double
precision of the Python source: `img_ratio = img.width / img.height` and
`target_ratio = self.width / self.height` are correctly rounded doubles,
`self.width / img_ratio` and `self.height * img_ratio` convert the `int` to a
double and round the `float` operation, and `int()` truncates the nonnegative
result (the floor). -/
def resizeDims (W H w h : Nat) : Nat × Nat :=
  let imgR : ℚ := roundF (Rat.divInt (Int.ofNat w) (Int.ofNat h))
  let tgtR : ℚ := roundF (Rat.divInt (Int.ofNat W) (Int.ofNat H))
  if imgR > tgtR then
    (W, (⌊roundF (roundF (Rat.divInt (Int.ofNat W) 1) / imgR)⌋).toNat)
  else
    ((⌊roundF (roundF (Rat.divInt (Int.ofNat H) 1) * imgR)⌋).toNat, H)

/-- Modelled from the spec: `Image.new('RGB', (W, H), 'white')` followed by
`canvas.paste(r, (ox, oy))` — a `W` by `H` canvas that shows the pasted image
inside its box and white (255, 255, 255) everywhere else. -/
def pasteCanvas (W H ox oy : Nat) (r : CGrid) : CGrid :=
  (List.range H).map (fun y =>
    (List.range W).map (fun x =>
      if oy ≤ y ∧ y < oy + cheight r ∧ ox ≤ x ∧ x < ox + cwidth r then
        getCPx r (y - oy) (x - ox)
      else (255, 255, 255)))

/-- `ImageProcessor._resize_maintain_aspect`, parametric in the resampling
filter `resample` (PIL `Image.resize` with `Image.LANCZOS`, whose pixel
content is outside this repository; its documented contract of returning an
image of the requested size is a hypothesis of the theorems below).  The two
float divisions raise `ZeroDivisionError` when the source height or the
target height is zero; modelled from Pillow, `img.resize` raises
`ValueError` (height and width must be greater than 0) when either computed
dimension truncates to zero. -/
def _resize_maintain_aspect (resample : CGrid → Nat → Nat → CGrid)
    (W H : Nat) (img : CGrid) : Except PyErr CGrid :=
  if cheight img = 0 then .error .zeroDivision
  else if H = 0 then .error .zeroDivision
  else
    let d := resizeDims W H (cwidth img) (cheight img)
    if d.1 = 0 ∨ d.2 = 0 then .error .valueError
    else
      let r := resample img d.1 d.2
      .ok (pasteCanvas W H ((W - d.1) / 2) ((H - d.2) / 2) r)

/-- Modelled from the PIL documentation: conversion of an RGB image to mode
`L` by the ITU-R 601-2 luma transform `L = (R * 299 + G * 587 + B * 114) / 1000`,
truncated to an integer. -/
def toGrayL (g : CGrid) : Grid :=
  g.map (List.map (fun p => ((⌊(p.1 * 299 + p.2.1 * 587 + p.2.2 * 114) / 1000⌋ : ℤ) : ℚ)))

/-- The three enhancement filters of `PIL.ImageEnhance` (library code outside
this repository), passed in as parameters of the embedding. -/
structure EnhanceFns where
  contrast : ℚ → CGrid → CGrid
  brightness : ℚ → CGrid → CGrid
  sharpness : ℚ → CGrid → CGrid

/-- `ImageProcessor.process_image`: the source file is `none` when missing,
`some none` when present but undecodable, and `some (some img)` when it
decodes to the RGB raster `img` (images not in RGB or L mode are converted to
RGB before this point).  Each enhancement runs only when its factor differs
from 1.0, then the image is converted to grayscale and dithered. -/
def process_image (E : EnhanceFns) (resample : CGrid → Nat → Nat → CGrid)
    (W H : Nat) (file : Option (Option CGrid)) (mode : String)
    (contrast brightness sharpness : ℚ) : Except PyErr Grid :=
  match file with
  | none => .error .fileNotFound
  | some none => .error .unidentifiedImage
  | some (some img0) =>
    match _resize_maintain_aspect resample W H img0 with
    | .error e => .error e
    | .ok img1 =>
      let img2 := if contrast ≠ 1 then E.contrast contrast img1 else img1
      let img3 := if brightness ≠ 1 then E.brightness brightness img2 else img2
      let img4 := if sharpness ≠ 1 then E.sharpness sharpness img3 else img3
      .ok (_apply_dithering mode (toGrayL img4)).1

/-! The processed-image cache (`ImageTransfer`). -/

/-- A source file on disk: its modification time and its decoded raster
(`none` when the bytes are not a decodable image). -/
structure SrcFile where
  mtime : ℚ
  decoded : Option CGrid

/-- A cached artifact: its modification time and the stored bitmap (PNG is
lossless, so reopening returns the saved pixels). -/
structure CacheFile where
  mtime : ℚ
  img : Grid

/-- The configuration of an `ImageTransfer`: the processing settings from its
constructor, the modelled library parameters, and `saveFails`, an oracle
telling which cache paths fail to persist (disk errors during
`processed_img.save`). -/
structure TCfg where
  E : EnhanceFns
  resample : CGrid → Nat → Nat → CGrid
  processedDir : String
  dither_mode : String
  contrast : ℚ
  brightness : ℚ
  sharpness : ℚ
  saveFails : String → Bool

/-- The file-system state seen by the cache: source files, cached artifacts
(keyed by full path), and the current clock used as the mtime of new writes. -/
structure TState where
  src : String → Option SrcFile
  cache : String → Option CacheFile
  now : ℚ

/-- The full path of the cache artifact for a source path. -/
def cachePathOf (cfg : TCfg) (sp : String) : String :=
  cfg.processedDir ++ "/" ++ _get_cache_filename sp

/-- The miss path of `get_processed_image`: process the source through the
full pipeline (the `ImageProcessor()` of `ImageTransfer` uses the default
400 by 300 geometry), then save to the cache; a failing save raises.  The
boolean is the served-from-cache flag (models which log line is emitted). -/
def processAndCache (cfg : TCfg) (st : TState) (sp : String) :
    Except PyErr (Grid × TState × Bool) :=
  match process_image cfg.E cfg.resample 400 300 ((st.src sp).map (·.decoded))
      cfg.dither_mode cfg.contrast cfg.brightness cfg.sharpness with
  | .error e => .error e
  | .ok img =>
    if cfg.saveFails (cachePathOf cfg sp) then .error .osError
    else
      .ok (img,
        { st with
          cache := fun p =>
            if p = cachePathOf cfg sp then some ⟨st.now, img⟩ else st.cache p },
        false)

/-- `ImageTransfer.get_processed_image`: serve the cached artifact when it
exists and is at least as new as the source; otherwise reprocess and cache.
Reading the mtime of a missing source raises `FileNotFoundError`. -/
def get_processed_image (cfg : TCfg) (st : TState) (sp : String) :
    Except PyErr (Grid × TState × Bool) :=
  match st.cache (cachePathOf cfg sp) with
  | some cf =>
    match st.src sp with
    | none => .error .fileNotFound
    | some sf =>
      if cf.mtime ≥ sf.mtime then .ok (cf.img, st, true)
      else processAndCache cfg st sp
  | none => processAndCache cfg st sp

/-- Whether a `get_processed_image` outcome was served from the cache. -/
def served (r : Except PyErr (Grid × TState × Bool)) : Bool :=
  match r with
  | .ok (_, _, b) => b
  | .error _ => false

/-- `ImageTransfer.preprocess_all`: run `get_processed_image` on every path,
catching any exception per item; the returned list records, in order, each
attempted path and whether it succeeded (models the per-item log lines). -/
def preprocess_all (cfg : TCfg) (st : TState) (paths : List String) :
    TState × List (String × Bool) :=
  paths.foldl
    (fun acc p =>
      match get_processed_image cfg acc.1 p with
      | .ok (_, stNew, _) => (stNew, acc.2 ++ [(p, true)])
      | .error _ => (acc.1, acc.2 ++ [(p, false)]))
    (st, [])

/-! Concrete data used by the witnesses and counterexamples below. -/

/-- A resampler stub honouring the documented size contract of PIL resize:
a solid black image of the requested size. -/
def stubResample (i : CGrid) (nw nh : Nat) : CGrid :=
  List.replicate nh (List.replicate nw ((0 : ℚ), (0 : ℚ), (0 : ℚ)))

/-- Identity enhancement filters, for instantiating the parametric pipeline. -/
def enhId : EnhanceFns := ⟨fun _ g => g, fun _ g => g, fun _ g => g⟩

/-- A one-pixel mid-gray source raster. -/
def srcImgA : CGrid := [[((100 : ℚ), (100 : ℚ), (100 : ℚ))]]

/-- A small binary bitmap standing for a cached artifact. -/
def bmpA : Grid := [[0, 255], [255, 0]]

/-- A transfer configuration with identity enhancers, the stub resampler and
reliable cache writes. -/
def cfgA : TCfg :=
  ⟨enhId, stubResample, "images/processed", "atkinson", 1, 1, 1, fun _ => false⟩

/-- Like `cfgA` but every cache write fails. -/
def cfgBad : TCfg :=
  ⟨enhId, stubResample, "images/processed", "atkinson", 1, 1, 1, fun _ => true⟩

/-- Like `cfgA` but with the floyd-steinberg mode and different enhancement
factors (still inert, since the enhancers are the identity). -/
def cfgB : TCfg :=
  ⟨enhId, stubResample, "images/processed", "floyd-steinberg", 2, 3, 4, fun _ => false⟩

/-- A file-system state with one decodable source (mtime 10) and a fresh
cache entry for it (mtime 20); the clock stands at 30. -/
def stFresh : TState :=
  ⟨fun p => if p = "images/queue/photo.jpg" then some ⟨10, some srcImgA⟩ else none,
   fun p => if p = cachePathOf cfgA "images/queue/photo.jpg" then some ⟨20, bmpA⟩ else none,
   30⟩

/-- A file-system state with one decodable source and an empty cache. -/
def stEmpty : TState :=
  ⟨fun p => if p = "images/queue/photo.jpg" then some ⟨10, some srcImgA⟩ else none,
   fun _ => none, 30⟩

/-- A file-system state with one decodable and one undecodable source and an
empty cache. -/
def stBatch : TState :=
  ⟨fun p =>
    if p = "images/queue/photo.jpg" then some ⟨10, some srcImgA⟩
    else if p = "images/queue/broken.jpg" then some ⟨10, none⟩
    else none,
   fun _ => none, 30⟩

/-! Shape preservation machinery. -/

/-- The shape of a grid: the list of its row lengths. -/
def shape (g : Grid) : List Nat := g.map List.length

theorem set_getD_self : ∀ (l : List α) (i : Nat) (d : α), l.set i (l.getD i d) = l
  | [], _, _ => rfl
  | _ :: _, 0, _ => rfl
  | a :: l, i + 1, d => by
    simp only [List.getD_cons_succ, List.set_cons_succ]
    rw [set_getD_self l i d]

theorem shape_setPx (g : Grid) (y x : Nat) (v : ℚ) : shape (setPx g y x v) = shape g := by
  unfold shape setPx
  rw [List.map_set, List.length_set]
  have h0 : (g.getD y []).length = (List.map List.length g).getD y 0 := by
    simpa using (List.getD_map g [] List.length).symm
  rw [h0]
  exact set_getD_self _ y 0

theorem shape_addPx (g : Grid) (y x : Nat) (v : ℚ) : shape (addPx g y x v) = shape g :=
  shape_setPx g y x _

theorem shape_foldl {β : Type} {f : Grid → β → Grid} (H : ∀ a b, shape (f a b) = shape a) :
    ∀ (l : List β) (g : Grid), shape (l.foldl f g) = shape g
  | [], _ => rfl
  | b :: l, g => by
    rw [List.foldl_cons, shape_foldl H l (f g b), H g b]

theorem gridH_of_shape {g₁ g₂ : Grid} (h : shape g₁ = shape g₂) : gridH g₁ = gridH g₂ := by
  have := congrArg List.length h
  simpa [shape, gridH] using this

theorem rowLen_of_shape {g₁ g₂ : Grid} (h : shape g₁ = shape g₂) (y : Nat) :
    (g₁.getD y []).length = (g₂.getD y []).length := by
  have h1 : (g₁.getD y []).length = (List.map List.length g₁).getD y 0 := by
    simpa using (List.getD_map g₁ [] List.length).symm
  have h2 : (g₂.getD y []).length = (List.map List.length g₂).getD y 0 := by
    simpa using (List.getD_map g₂ [] List.length).symm
  rw [h1, h2]
  exact congrArg (fun l => l.getD y 0) h

theorem gridW_of_shape {g₁ g₂ : Grid} (h : shape g₁ = shape g₂) : gridW g₁ = gridW g₂ :=
  rowLen_of_shape h 0

theorem shape_fsStep (w h : Nat) (a : Grid) (y x : Nat) : shape (fsStep w h a y x) = shape a := by
  unfold fsStep
  split_ifs <;> simp [shape_addPx, shape_setPx]

theorem shape_atkStep (w h : Nat) (a : Grid) (y x : Nat) : shape (atkStep w h a y x) = shape a := by
  unfold atkStep
  split_ifs <;> simp [shape_addPx, shape_setPx]

theorem shape_pilConvert1FS (g : Grid) : shape (pilConvert1FS g) = shape g := by
  unfold pilConvert1FS
  exact shape_foldl (fun a y => shape_foldl (fun b x => shape_fsStep _ _ b y x) _ a) _ g

theorem shape_atkinsonLoop (g : Grid) : shape (atkinsonLoop g) = shape g := by
  unfold atkinsonLoop
  exact shape_foldl (fun a y => shape_foldl (fun b x => shape_atkStep _ _ b y x) _ a) _ g

theorem shape_mapRows (f : ℚ → ℚ) (g : Grid) : shape (g.map (List.map f)) = shape g := by
  simp [shape, List.map_map, Function.comp_def]

/-! Geometry of each dithering branch. -/

theorem shape_atkinsonDither (g : Grid) : shape (_atkinson_dither g) = shape g := by
  unfold _atkinson_dither
  rw [shape_pilConvert1FS, shape_mapRows, shape_atkinsonLoop]

theorem gridH_pilConvert1Ordered (g : Grid) : gridH (pilConvert1Ordered g) = gridH g := by
  simp [pilConvert1Ordered, gridH]

theorem gridW_pilConvert1Ordered (g : Grid) : gridW (pilConvert1Ordered g) = gridW g := by
  unfold pilConvert1Ordered gridW
  rcases g with _ | ⟨r, g⟩
  · simp
  · simp [gridH, List.range_succ_eq_map]

/-- Claim C1: for every grayscale input image and every dither mode, the
bitmap returned by `_apply_dithering` has exactly the width and the height of
the input (stated for all mode strings, which covers the four named modes and
the fallback). -/
theorem c1_dither_preserves_geometry (g : Grid) (mode : String) :
    gridH (_apply_dithering mode g).1 = gridH g ∧
      gridW (_apply_dithering mode g).1 = gridW g := by
  unfold _apply_dithering
  split_ifs <;>
    simp only [] <;>
    first
      | exact ⟨gridH_of_shape (shape_pilConvert1FS g), gridW_of_shape (shape_pilConvert1FS g)⟩
      | exact ⟨gridH_of_shape (shape_atkinsonDither g), gridW_of_shape (shape_atkinsonDither g)⟩
      | exact ⟨gridH_pilConvert1Ordered g, gridW_pilConvert1Ordered g⟩
      | exact ⟨gridH_of_shape (shape_mapRows _ g), gridW_of_shape (shape_mapRows _ g)⟩

/-! Equivalence of the source Atkinson loop with the amended claim-level
description. -/

theorem foldl_flatMap {α β γ : Type} (l : List α) (f : α → List β) (g : γ → β → γ)
    (init : γ) :
    (l.flatMap f).foldl g init = l.foldl (fun acc a => (f a).foldl g acc) init := by
  induction l generalizing init with
  | nil => rfl
  | cons a l ih => simp [List.flatMap_cons, List.foldl_append, ih]

theorem filter_range_aux (W : Nat) :
    ∀ n, (List.range n).filter (fun x => decide (1 ≤ x) && decide (x + 2 < W)) =
      List.range' 1 (min n (W - 2) - 1) := by
  intro n
  induction n with
  | zero => simp
  | succ n ih =>
    rw [List.range_succ, List.filter_append, ih]
    by_cases h1 : 1 ≤ n ∧ n + 2 < W
    · have hmin : min (n + 1) (W - 2) - 1 = (min n (W - 2) - 1) + 1 := by omega
      rw [hmin, List.range'_concat]
      simp only [List.filter_cons, List.filter_nil]
      rw [if_pos (by simp [h1.1, h1.2])]
      congr 2
      omega
    · have hmin : min (n + 1) (W - 2) - 1 = min n (W - 2) - 1 := by omega
      rw [hmin]
      simp only [List.filter_cons, List.filter_nil]
      rw [if_neg (by simpa using fun ha hb => h1 ⟨ha, hb⟩)]
      simp

theorem filter_range (w : Nat) :
    (List.range w).filter (fun x => decide (1 ≤ x) && decide (x + 2 < w)) =
      List.range' 1 (w - 3) := by
  rw [filter_range_aux w w]
  congr 1
  omega

theorem atkNbrs_filter (w h y x : Nat) (hx1 : 1 ≤ x) (hx2 : x + 2 < w) (hy : y + 2 < h) :
    ((atkNbrs y x).filter
      (fun q => decide (0 ≤ q.2) && decide (q.1 < (h : Int)) && decide (q.2 < (w : Int)))) =
      atkNbrs y x := by
  rw [List.filter_eq_self]
  intro q hq
  simp only [atkNbrs, List.mem_cons, List.not_mem_nil, or_false] at hq
  rcases hq with h | h | h | h | h | h <;> subst h <;> simp <;> omega

theorem atkStep_eq_amend (w h : Nat) (a : Grid) (y x : Nat)
    (hx1 : 1 ≤ x) (hx2 : x + 2 < w) (hy : y + 2 < h) :
    atkAmendStep w h a y x = atkStep w h a y x := by
  have c1 : x + 1 < w := by omega
  have c2 : y + 1 < h := by omega
  have e2 : ((x : Int) + 1).toNat = x + 1 := by omega
  have e3 : ((x : Int) + 2).toNat = x + 2 := by omega
  have e4 : ((x : Int) - 1).toNat = x - 1 := by omega
  have e5 : ((y : Int) + 1).toNat = y + 1 := by omega
  have e6 : ((y : Int) + 2).toNat = y + 2 := by omega
  have e7 : ((y : Int)).toNat = y := by omega
  have e8 : ((x : Int)).toNat = x := by omega
  simp only [atkAmendStep]
  rw [atkNbrs_filter w h y x hx1 hx2 hy]
  simp only [atkNbrs, List.foldl_cons, List.foldl_nil, e2, e3, e4, e5, e6, e7, e8]
  simp only [atkStep, if_pos c1, if_pos hx2, if_pos c2, if_pos hx1, if_pos hy]

theorem atkinsonLoop_eq_amendVisits (g : Grid) :
    (atkAmendVisits (gridW g) (gridH g)).foldl
        (fun a q => atkAmendStep (gridW g) (gridH g) a q.1 q.2) g = atkinsonLoop g := by
  simp only [atkinsonLoop, atkAmendVisits]
  rw [foldl_flatMap]
  apply List.foldl_ext
  intro a y hy
  rw [List.foldl_map, filter_range]
  apply List.foldl_ext
  intro b x hx
  rw [List.mem_range'_1] at hx
  rw [List.mem_range] at hy
  exact atkStep_eq_amend _ _ b y x (by omega) (by omega) (by omega)

/-- Claim C2, amended: the Atkinson ditherer visits, in raster order, every
pixel except those of the first column, the last two columns and the last two
rows; each visited pixel is quantized to 255 exactly when its current value
exceeds 128, an eighth of the residual is added to the six neighbours
(x+1,y), (x+2,y), (x-1,y+1), (x,y+1), (x+1,y+1), (x,y+2) whenever each lies
in bounds, and the resulting array is clamped to [0,255], truncated to
integers, and handed to the final mode-1 conversion (whose default dither is
Floyd-Steinberg) rather than being thresholded without diffusion. -/
theorem c2_atkinson_amended (g : Grid) : _atkinson_dither g = atkinsonAmendedSpec g := by
  simp only [_atkinson_dither, atkinsonAmendedSpec]
  rw [atkinsonLoop_eq_amendVisits g]

set_option maxRecDepth 100000 in
/-- Claim C2 as stated fails on a concrete five by five image, all black
except for the value 128 at row 0, column 1: as stated the claim visits that
pixel, quantizes it to the nearest of 0 and 255 (that is, to 255) and
thresholds the rest, whereas the source quantizes it with the strict test
`128 > 128` to 0, so the bitmaps differ at that pixel. -/
theorem c2_counterexample :
    getPx (_atkinson_dither
      [[0, 128, 0, 0, 0], [0, 0, 0, 0, 0], [0, 0, 0, 0, 0],
       [0, 0, 0, 0, 0], [0, 0, 0, 0, 0]]) 0 1 = 0 ∧
    getPx (atkinsonClaimSpec
      [[0, 128, 0, 0, 0], [0, 0, 0, 0, 0], [0, 0, 0, 0, 0],
       [0, 0, 0, 0, 0], [0, 0, 0, 0, 0]]) 0 1 = 255 := by
  constructor <;> with_unfolding_all decide

/-! Pointwise reading of grid updates. -/

theorem getD_set_ne (l : List α) {i j : Nat} (a d : α) (h : i ≠ j) :
    (l.set i a).getD j d = l.getD j d := by
  rw [List.getD_eq_getElem?_getD, List.getD_eq_getElem?_getD, List.getElem?_set_ne h]

theorem getD_set_lt (l : List α) {i : Nat} (a d : α) (h : i < l.length) :
    (l.set i a).getD i d = a := by
  rw [List.getD_eq_getElem?_getD, List.getElem?_set_self h]
  rfl

theorem getPx_setPx_ne {y x y2 x2 : Nat} (g : Grid) (v : ℚ) (hne : y ≠ y2 ∨ x ≠ x2) :
    getPx (setPx g y2 x2 v) y x = getPx g y x := by
  unfold getPx setPx
  by_cases hy : y2 = y
  · subst hy
    have hx : x2 ≠ x := by omega
    by_cases hl : y2 < g.length
    · rw [getD_set_lt g _ [] hl, getD_set_ne _ _ _ hx]
    · rw [List.set_eq_of_length_le (Nat.le_of_not_lt hl)]
  · rw [getD_set_ne g _ [] hy]

theorem getPx_addPx_ne {y x y2 x2 : Nat} (g : Grid) (v : ℚ) (hne : y ≠ y2 ∨ x ≠ x2) :
    getPx (addPx g y2 x2 v) y x = getPx g y x :=
  getPx_setPx_ne g _ hne

theorem getPx_setPx_self (g : Grid) (y x : Nat) (v : ℚ) (hy : y < g.length)
    (hx : x < (g.getD y []).length) : getPx (setPx g y x v) y x = v := by
  unfold getPx setPx
  rw [getD_set_lt g _ [] hy, getD_set_lt _ v 0 hx]

/-! Raster-order framing for the Floyd-Steinberg pass: a step at a later
raster position leaves earlier pixels untouched, and the quantized value a
step writes at its own position is final. -/

theorem fsStep_preserves_earlier (w h : Nat) (a : Grid) {y x y2 x2 : Nat}
    (hlt : y < y2 ∨ (y = y2 ∧ x < x2)) :
    getPx (fsStep w h a y2 x2) y x = getPx a y x := by
  have k1 : y ≠ y2 ∨ x ≠ x2 := by omega
  have k2 : y ≠ y2 ∨ x ≠ x2 + 1 := by omega
  have k3 : y ≠ y2 + 1 ∨ x ≠ x2 - 1 := by omega
  have k4 : y ≠ y2 + 1 ∨ x ≠ x2 := by omega
  have k5 : y ≠ y2 + 1 ∨ x ≠ x2 + 1 := by omega
  unfold fsStep
  split_ifs <;>
    first
      | rw [getPx_addPx_ne _ _ k5, getPx_addPx_ne _ _ k4, getPx_addPx_ne _ _ k3,
          getPx_addPx_ne _ _ k2, getPx_setPx_ne _ _ k1]
      | rw [getPx_addPx_ne _ _ k5, getPx_addPx_ne _ _ k4,
          getPx_addPx_ne _ _ k2, getPx_setPx_ne _ _ k1]
      | rw [getPx_addPx_ne _ _ k4, getPx_addPx_ne _ _ k3, getPx_setPx_ne _ _ k1]
      | rw [getPx_addPx_ne _ _ k4, getPx_setPx_ne _ _ k1]
      | rw [getPx_addPx_ne _ _ k2, getPx_setPx_ne _ _ k1]
      | rw [getPx_setPx_ne _ _ k1]

theorem fsStep_at_self (w h : Nat) (a : Grid) (y x : Nat) (hy : y < a.length)
    (hx : x < (a.getD y []).length) :
    getPx (fsStep w h a y x) y x = fsQuant (getPx a y x) := by
  have k2 : y ≠ y ∨ x ≠ x + 1 := by omega
  have k3 : y ≠ y + 1 ∨ x ≠ x - 1 := by omega
  have k4 : y ≠ y + 1 ∨ x ≠ x := by omega
  have k5 : y ≠ y + 1 ∨ x ≠ x + 1 := by omega
  unfold fsStep
  split_ifs <;>
    first
      | rw [getPx_addPx_ne _ _ k5, getPx_addPx_ne _ _ k4, getPx_addPx_ne _ _ k3,
          getPx_addPx_ne _ _ k2, getPx_setPx_self a y x _ hy hx]
      | rw [getPx_addPx_ne _ _ k5, getPx_addPx_ne _ _ k4,
          getPx_addPx_ne _ _ k2, getPx_setPx_self a y x _ hy hx]
      | rw [getPx_addPx_ne _ _ k4, getPx_addPx_ne _ _ k3, getPx_setPx_self a y x _ hy hx]
      | rw [getPx_addPx_ne _ _ k4, getPx_setPx_self a y x _ hy hx]
      | rw [getPx_addPx_ne _ _ k2, getPx_setPx_self a y x _ hy hx]
      | rw [getPx_setPx_self a y x _ hy hx]

theorem getPx_foldl_row (w h y : Nat) {ty tx : Nat} (xs : List Nat)
    (hxs : ∀ x ∈ xs, ty < y ∨ (ty = y ∧ tx < x)) :
    ∀ a, getPx (xs.foldl (fun b x => fsStep w h b y x) a) ty tx = getPx a ty tx := by
  induction xs with
  | nil => intro a; rfl
  | cons x xs ih =>
    intro a
    rw [List.foldl_cons, ih (fun q hq => hxs q (List.mem_cons_of_mem x hq)),
      fsStep_preserves_earlier w h a (hxs x (List.mem_cons_self x xs))]

theorem getPx_foldl_rows (w h : Nat) {ty tx : Nat} (ys : List Nat)
    (hys : ∀ yy ∈ ys, ty < yy) :
    ∀ a, getPx
        (ys.foldl (fun a y => (List.range w).foldl (fun b x => fsStep w h b y x) a) a)
        ty tx = getPx a ty tx := by
  induction ys with
  | nil => intro a; rfl
  | cons yy ys ih =>
    intro a
    rw [List.foldl_cons, ih (fun q hq => hys q (List.mem_cons_of_mem yy hq)),
      getPx_foldl_row w h yy _ (fun q _ => Or.inl (hys yy (List.mem_cons_self yy ys))) a]

theorem shape_foldl_row (w h y : Nat) (xs : List Nat) (a : Grid) :
    shape (xs.foldl (fun b x => fsStep w h b y x) a) = shape a :=
  shape_foldl (fun b x => shape_fsStep w h b y x) xs a

theorem shape_foldl_rows (w h : Nat) (ys : List Nat) (a : Grid) :
    shape (ys.foldl (fun a y => (List.range w).foldl (fun b x => fsStep w h b y x) a) a) =
      shape a :=
  shape_foldl (fun a y => shape_foldl_row w h y _ a) ys a

theorem rect_of_shape {g₁ g₂ : Grid} (h : shape g₁ = shape g₂) (hr : Rect g₂) : Rect g₁ := by
  intro r hrm
  obtain ⟨i, hi, rfl⟩ := List.mem_iff_getElem.mp hrm
  have hrow : g₁[i] = g₁.getD i [] := (List.getD_eq_getElem g₁ [] hi).symm
  rw [hrow, rowLen_of_shape h i, gridW_of_shape h]
  have hi2 : i < g₂.length := by
    have := gridH_of_shape h
    simp only [gridH] at this
    omega
  have : g₂.getD i [] ∈ g₂ := by
    rw [List.getD_eq_getElem g₂ [] hi2]
    exact List.getElem_mem hi2
  exact hr _ this

theorem range_split {n k : Nat} (h : k < n) :
    List.range n = List.range (k + 1) ++ List.range' (k + 1) (n - (k + 1)) := by
  rw [List.range_eq_range', List.range_eq_range']
  have happ := List.range'_append 0 (k + 1) (n - (k + 1)) 1
  simp only [Nat.one_mul, Nat.zero_add] at happ
  rw [happ]
  congr 1
  omega

theorem pilConvert1FS_binary (g : Grid) (hr : Rect g) (y x : Nat)
    (hy : y < gridH g) (hx : x < gridW g) :
    getPx (pilConvert1FS g) y x = 0 ∨ getPx (pilConvert1FS g) y x = 255 := by
  have hyl : y < g.length := hy
  simp only [pilConvert1FS]
  rw [range_split hy, List.foldl_append,
    getPx_foldl_rows (gridW g) (gridH g) _ (fun q hq => by rw [List.mem_range'_1] at hq; omega)]
  rw [List.range_succ, List.foldl_append]
  have hsh1 : shape ((List.range y).foldl
      (fun a yy => (List.range (gridW g)).foldl
        (fun b xx => fsStep (gridW g) (gridH g) b yy xx) a) g) = shape g :=
    shape_foldl_rows (gridW g) (gridH g) _ g
  set A := (List.range y).foldl
      (fun a yy => (List.range (gridW g)).foldl
        (fun b xx => fsStep (gridW g) (gridH g) b yy xx) a) g with hA
  simp only [List.foldl_cons, List.foldl_nil]
  rw [range_split hx, List.foldl_append,
    getPx_foldl_row (gridW g) (gridH g) y _ (fun q hq => by rw [List.mem_range'_1] at hq; omega)]
  rw [List.range_succ, List.foldl_append]
  have hsh2 : shape ((List.range x).foldl
        (fun b xx => fsStep (gridW g) (gridH g) b y xx) A) = shape g :=
    (shape_foldl_row (gridW g) (gridH g) y _ A).trans hsh1
  set B := (List.range x).foldl (fun b xx => fsStep (gridW g) (gridH g) b y xx) A with hB
  simp only [List.foldl_cons, List.foldl_nil]
  have hlen : y < B.length := by
    have h1 := congrArg List.length hsh2
    simp only [shape, List.length_map] at h1
    omega
  have hrow : x < (B.getD y []).length := by
    rw [rowLen_of_shape hsh2 y]
    have hmem : g.getD y [] ∈ g := by
      rw [List.getD_eq_getElem g [] hyl]
      exact List.getElem_mem hyl
    rw [hr _ hmem]
    exact hx
  rw [fsStep_at_self (gridW g) (gridH g) B y x hlen hrow]
  unfold fsQuant
  split_ifs
  · right; rfl
  · left; rfl

theorem getPx_mapRows (f : ℚ → ℚ) (g : Grid) {y x : Nat} (hy : y < g.length)
    (hx : x < (g.getD y []).length) :
    getPx (g.map (List.map f)) y x = f (getPx g y x) := by
  unfold getPx
  have hy2 : y < (g.map (List.map f)).length := by simpa using hy
  rw [List.getD_eq_getElem (g.map (List.map f)) [] hy2, List.getElem_map]
  rw [List.getD_eq_getElem g [] hy] at hx ⊢
  have hx2 : x < (List.map f g[y]).length := by simpa using hx
  rw [List.getD_eq_getElem _ 0 hx2, List.getElem_map, List.getD_eq_getElem _ 0 hx]

theorem getPx_def (g : Grid) (y x : Nat) : getPx g y x = (g.getD y []).getD x 0 := rfl

theorem getPx_ordered (g : Grid) {y x : Nat} (hy : y < gridH g) (hx : x < gridW g) :
    getPx (pilConvert1Ordered g) y x =
      if getPx g y x > bayerT y x then (255 : ℚ) else 0 := by
  rw [getPx_def (pilConvert1Ordered g) y x]
  unfold pilConvert1Ordered
  have hy2 : y < ((List.range (gridH g)).map (fun yy =>
      (List.range (gridW g)).map (fun xx =>
        if getPx g yy xx > bayerT yy xx then (255 : ℚ) else 0))).length := by
    simpa using hy
  rw [List.getD_eq_getElem _ [] hy2, List.getElem_map, List.getElem_range]
  have hx2 : x < ((List.range (gridW g)).map (fun xx =>
      if getPx g y xx > bayerT y xx then (255 : ℚ) else 0)).length := by
    simpa using hx
  rw [List.getD_eq_getElem _ 0 hx2, List.getElem_map, List.getElem_range]

/-- Claim C4: for every grayscale input and every dither mode, every pixel of
the final output bitmap is exactly 0 or 255. -/
theorem c4_output_binary (mode : String) (g : Grid) (hr : Rect g) (y x : Nat)
    (hy : y < gridH g) (hx : x < gridW g) :
    getPx (_apply_dithering mode g).1 y x = 0 ∨
      getPx (_apply_dithering mode g).1 y x = 255 := by
  have hatk : getPx (_atkinson_dither g) y x = 0 ∨
      getPx (_atkinson_dither g) y x = 255 := by
    unfold _atkinson_dither
    have hsh : shape ((atkinsonLoop g).map (List.map clipByte)) = shape g :=
      (shape_mapRows clipByte (atkinsonLoop g)).trans (shape_atkinsonLoop g)
    exact pilConvert1FS_binary _ (rect_of_shape hsh hr) y x
      (by rw [gridH_of_shape hsh]; exact hy) (by rw [gridW_of_shape hsh]; exact hx)
  have hthr : getPx (pilConvert1None g) y x = 0 ∨
      getPx (pilConvert1None g) y x = 255 := by
    unfold pilConvert1None
    have hyl : y < g.length := hy
    have hxl : x < (g.getD y []).length := by
      have hmem : g.getD y [] ∈ g := by
        rw [List.getD_eq_getElem g [] hyl]
        exact List.getElem_mem hyl
      rw [hr _ hmem]
      exact hx
    rw [getPx_mapRows _ g hyl hxl]
    split_ifs
    · right; rfl
    · left; rfl
  have hord : getPx (pilConvert1Ordered g) y x = 0 ∨
      getPx (pilConvert1Ordered g) y x = 255 := by
    rw [getPx_ordered g hy hx]
    split_ifs
    · right; rfl
    · left; rfl
  have hfs := pilConvert1FS_binary g hr y x hy hx
  unfold _apply_dithering
  split_ifs <;> simpa

/-- Witness for C4 at a concrete one-pixel image and the threshold mode. -/
theorem c4_output_binary_witness :
    getPx (_apply_dithering "threshold" [[(100 : ℚ)]]).1 0 0 = 0 ∨
      getPx (_apply_dithering "threshold" [[(100 : ℚ)]]).1 0 0 = 255 :=
  c4_output_binary "threshold" [[(100 : ℚ)]] (by unfold Rect; decide) 0 0 (by decide) (by decide)

/-- Claim C6: a mode string outside the four known modes does not raise: the
bitmap equals the one produced by explicitly requesting floyd-steinberg, and
the fallback emits a warning log line. -/
theorem c6_unknown_mode_fallback (mode : String) (g : Grid)
    (h : mode ∉ ["floyd-steinberg", "atkinson", "ordered", "threshold"]) :
    (_apply_dithering mode g).1 = (_apply_dithering "floyd-steinberg" g).1 ∧
      (_apply_dithering mode g).2 ≠ [] := by
  simp only [List.mem_cons, List.not_mem_nil, or_false, not_or] at h
  obtain ⟨h1, h2, h3, h4⟩ := h
  unfold _apply_dithering
  rw [if_neg h1, if_neg h2, if_neg h3, if_neg h4, if_pos rfl]
  exact ⟨rfl, by simp⟩

/-- Witness for C6 at a concrete garbage mode string. -/
theorem c6_unknown_mode_fallback_witness :
    (_apply_dithering "garbage" [[(100 : ℚ)]]).1 =
        (_apply_dithering "floyd-steinberg" [[(100 : ℚ)]]).1 ∧
      (_apply_dithering "garbage" [[(100 : ℚ)]]).2 ≠ [] :=
  c6_unknown_mode_fallback "garbage" [[(100 : ℚ)]] (by decide)

/-! The compositor: resized dimensions and paste geometry. -/

theorem log2Aux_eq_log2 : ∀ (fuel n : Nat), n ≤ fuel → log2Aux fuel n = Nat.log2 n := by
  intro fuel
  induction fuel with
  | zero =>
    intro n hn
    have h0 : n = 0 := Nat.le_zero.mp hn
    subst h0
    rw [show log2Aux 0 0 = 0 from rfl, Nat.log2, if_neg (by omega)]
  | succ f ih =>
    intro n hn
    rw [show log2Aux (f + 1) n = if n < 2 then 0 else log2Aux f (n / 2) + 1 from rfl]
    by_cases h2 : n < 2
    · rw [if_pos h2, Nat.log2, if_neg (by omega)]
    · have hdiv : n / 2 ≤ f := by omega
      rw [if_neg h2, ih _ hdiv]
      conv_rhs => rw [Nat.log2]
      rw [if_pos (by omega)]

theorem log2F_eq (n : Nat) : log2F n = Nat.log2 n := log2Aux_eq_log2 n n (le_refl n)

theorem nearestEven_spec (n d : Nat) (hd : 0 < d) :
    |(nearestEven n d : ℚ) - (n : ℚ) / (d : ℚ)| ≤ 1 / 2 := by
  have hd0 : (0 : ℚ) < (d : ℚ) := by exact_mod_cast hd
  have hdne : (d : ℚ) ≠ 0 := ne_of_gt hd0
  have hsplit : (d : ℚ) * ((n / d : Nat) : ℚ) + ((n % d : Nat) : ℚ) = (n : ℚ) := by
    exact_mod_cast Nat.div_add_mod n d
  have hval : (n : ℚ) / (d : ℚ) = ((n / d : Nat) : ℚ) + ((n % d : Nat) : ℚ) / (d : ℚ) := by
    field_simp
    linarith [hsplit]
  simp only [nearestEven]
  split_ifs with h1 h2 h3
  · have hr : (2 : ℚ) * ((n % d : Nat) : ℚ) ≤ (d : ℚ) := by exact_mod_cast le_of_lt h1
    have hrdiv : ((n % d : Nat) : ℚ) / (d : ℚ) ≤ 1 / 2 := by
      rw [div_le_div_iff₀ hd0 (by norm_num : (0:ℚ) < 2)]
      linarith
    have hrnn : (0 : ℚ) ≤ ((n % d : Nat) : ℚ) / (d : ℚ) := by positivity
    rw [hval, abs_le]
    constructor <;> [skip; skip] <;> linarith
  · have hr : (d : ℚ) ≤ (2 : ℚ) * ((n % d : Nat) : ℚ) := by exact_mod_cast le_of_lt h2
    have hrd : ((n % d : Nat) : ℚ) < (d : ℚ) := by exact_mod_cast Nat.mod_lt n hd
    have hge : (1 : ℚ) / 2 ≤ ((n % d : Nat) : ℚ) / (d : ℚ) := by
      rw [div_le_div_iff₀ (by norm_num : (0:ℚ) < 2) hd0]
      linarith
    have hlt : ((n % d : Nat) : ℚ) / (d : ℚ) < 1 := by
      rw [div_lt_one hd0]; exact hrd
    rw [hval, abs_le]
    push_cast
    constructor <;> linarith
  · have hr : (2 : ℚ) * ((n % d : Nat) : ℚ) = (d : ℚ) := by
      exact_mod_cast (by omega : 2 * (n % d) = d)
    have hrdiv : ((n % d : Nat) : ℚ) / (d : ℚ) = 1 / 2 := by
      rw [div_eq_div_iff hdne (by norm_num : (2:ℚ) ≠ 0)]
      linarith
    rw [hval, hrdiv, abs_le]
    constructor <;> linarith
  · have hr : (2 : ℚ) * ((n % d : Nat) : ℚ) = (d : ℚ) := by
      exact_mod_cast (by omega : 2 * (n % d) = d)
    have hrdiv : ((n % d : Nat) : ℚ) / (d : ℚ) = 1 / 2 := by
      rw [div_eq_div_iff hdne (by norm_num : (2:ℚ) ≠ 0)]
      linarith
    rw [hval, hrdiv, abs_le]
    push_cast
    constructor <;> linarith

theorem zpow_sub_nat (m k : Nat) :
    (2 : ℚ) ^ ((m : ℤ) - (k : ℤ)) = (2 ^ m : ℚ) / (2 ^ k : ℚ) := by
  rw [zpow_sub₀ (by norm_num : (2:ℚ) ≠ 0), zpow_natCast, zpow_natCast]

theorem flog2_bracket (a b : Nat) (ha : 0 < a) (hb : 0 < b) :
    (2 : ℚ) ^ (flog2 a b) ≤ (a : ℚ) / (b : ℚ) ∧
      (a : ℚ) / (b : ℚ) < (2 : ℚ) ^ (flog2 a b + 1) := by
  have ha0 : (0 : ℚ) < (a : ℚ) := by exact_mod_cast ha
  have hb0 : (0 : ℚ) < (b : ℚ) := by exact_mod_cast hb
  have hla : (2 ^ Nat.log2 a : ℚ) ≤ (a : ℚ) := by
    exact_mod_cast Nat.log2_self_le (by omega)
  have hla2 : (a : ℚ) < (2 ^ (Nat.log2 a + 1) : ℚ) := by exact_mod_cast Nat.lt_log2_self
  have hlb : (2 ^ Nat.log2 b : ℚ) ≤ (b : ℚ) := by
    exact_mod_cast Nat.log2_self_le (by omega)
  have hlb2 : (b : ℚ) < (2 ^ (Nat.log2 b + 1) : ℚ) := by exact_mod_cast Nat.lt_log2_self
  have hp2 : (0 : ℚ) < (2 ^ Nat.log2 b : ℚ) := by positivity
  have hp3 : (0 : ℚ) < (2 ^ (Nat.log2 b + 1) : ℚ) := by positivity
  unfold flog2
  rw [log2F_eq, log2F_eq]
  split_ifs with htest
  · have hq : (a : ℚ) * (2 ^ Nat.log2 b : ℚ) < (b : ℚ) * (2 ^ Nat.log2 a : ℚ) := by
      exact_mod_cast htest
    constructor
    · have he : (Nat.log2 a : ℤ) - (Nat.log2 b : ℤ) - 1 =
          (Nat.log2 a : ℤ) - ((Nat.log2 b + 1 : Nat) : ℤ) := by push_cast; ring
      rw [he, zpow_sub_nat]
      rw [div_le_div_iff₀ hp3 hb0]
      calc (2 ^ Nat.log2 a : ℚ) * (b : ℚ) ≤ (a : ℚ) * (b : ℚ) :=
            mul_le_mul_of_nonneg_right hla (le_of_lt hb0)
        _ ≤ (a : ℚ) * (2 ^ (Nat.log2 b + 1) : ℚ) :=
            mul_le_mul_of_nonneg_left (le_of_lt hlb2) (le_of_lt ha0)
    · have he : (Nat.log2 a : ℤ) - (Nat.log2 b : ℤ) - 1 + 1 =
          (Nat.log2 a : ℤ) - (Nat.log2 b : ℤ) := by ring
      rw [he, zpow_sub_nat]
      rw [div_lt_div_iff₀ hb0 hp2]
      linarith [hq]
  · have hq : (b : ℚ) * (2 ^ Nat.log2 a : ℚ) ≤ (a : ℚ) * (2 ^ Nat.log2 b : ℚ) := by
      exact_mod_cast not_lt.mp htest
    constructor
    · rw [zpow_sub_nat, div_le_div_iff₀ hp2 hb0]
      linarith [hq]
    · have he : (Nat.log2 a : ℤ) - (Nat.log2 b : ℤ) + 1 =
          ((Nat.log2 a + 1 : Nat) : ℤ) - (Nat.log2 b : ℤ) := by push_cast; ring
      rw [he, zpow_sub_nat]
      rw [div_lt_div_iff₀ hb0 hp2]
      calc (a : ℚ) * (2 ^ Nat.log2 b : ℚ) ≤ (a : ℚ) * (b : ℚ) :=
            mul_le_mul_of_nonneg_left hlb (le_of_lt ha0)
        _ < (2 ^ (Nat.log2 a + 1) : ℚ) * (b : ℚ) :=
            mul_lt_mul_of_pos_right hla2 hb0

/-- Algebra for the division branch of the rounding error bound. -/
theorem div_bound_aux (N q pk : ℚ) (hpk : 0 < pk) (h53 : (2 : ℚ) ^ 53 ≤ 2 * (q * pk))
    (hne : |N - q * pk| ≤ 1 / 2) : |N / pk - q| ≤ q / 2 ^ 53 := by
  have h1 : N / pk - q = (N - q * pk) / pk := by
    field_simp
    ring
  rw [h1, abs_div, abs_of_pos hpk]
  rw [div_le_div_iff₀ hpk (by positivity : (0:ℚ) < 2 ^ 53)]
  calc |N - q * pk| * 2 ^ 53 ≤ (1 / 2) * 2 ^ 53 :=
        mul_le_mul_of_nonneg_right hne (by positivity)
    _ ≤ q * pk := by linarith

/-- Algebra for the multiplication branch of the rounding error bound. -/
theorem mul_bound_aux (N q pk : ℚ) (hpk : 0 < pk) (h53 : pk * (2 : ℚ) ^ 53 ≤ 2 * q)
    (hne : |N - q / pk| ≤ 1 / 2) : |N * pk - q| ≤ q / 2 ^ 53 := by
  have h1 : N * pk - q = (N - q / pk) * pk := by field_simp
  rw [h1, abs_mul, abs_of_pos hpk]
  rw [le_div_iff₀ (by positivity : (0:ℚ) < 2 ^ 53)]
  calc |N - q / pk| * pk * 2 ^ 53 ≤ (1 / 2) * pk * 2 ^ 53 := by
        apply mul_le_mul_of_nonneg_right
          (mul_le_mul_of_nonneg_right hne (le_of_lt hpk)) (by positivity)
    _ ≤ q := by linarith

/-- `roundF` is within half an ulp of its argument: relative error at most
`2 ^ (-53)`. -/
theorem roundF_err (q : ℚ) (hq : 0 < q) : |roundF q - q| ≤ q / 2 ^ 53 := by
  have hnum : 0 < q.num := Rat.num_pos.mpr hq
  have ha : 0 < q.num.toNat := by omega
  have hb : 0 < q.den := q.den_pos
  have hcast : ((q.num.toNat : Nat) : ℚ) = (q.num : ℚ) := by
    exact_mod_cast congrArg (fun z => ((z : ℤ) : ℚ)) (Int.toNat_of_nonneg (le_of_lt hnum))
  have hab : ((q.num.toNat : Nat) : ℚ) / ((q.den : Nat) : ℚ) = q := by
    rw [hcast, Rat.num_div_den]
  obtain ⟨hlow, hup⟩ := flog2_bracket q.num.toNat q.den ha hb
  rw [hab] at hlow hup
  simp only [roundF, if_neg (not_le.mpr hq)]
  split_ifs with he
  · -- e ≤ 52 : value is nearestEven (a * 2^k) b / 2^k
    set k := (52 - flog2 q.num.toNat q.den).toNat with hkdef
    have hk : (k : ℤ) = 52 - flog2 q.num.toNat q.den := by
      rw [hkdef]
      exact Int.toNat_of_nonneg (by omega)
    have hpk : (0 : ℚ) < (2 : ℚ) ^ k := by positivity
    have hval : ((q.num.toNat * 2 ^ k : Nat) : ℚ) / ((q.den : Nat) : ℚ) = q * 2 ^ k := by
      push_cast
      calc ((q.num.toNat : Nat) : ℚ) * 2 ^ k / ((q.den : Nat) : ℚ)
          = (((q.num.toNat : Nat) : ℚ) / ((q.den : Nat) : ℚ)) * 2 ^ k := by ring
        _ = q * 2 ^ k := by rw [hab]
    have hne := nearestEven_spec (q.num.toNat * 2 ^ k) q.den hb
    rw [hval] at hne
    have hzz : (2 : ℚ) ^ flog2 q.num.toNat q.den * 2 ^ k = (2 : ℚ) ^ (52 : ℤ) := by
      rw [← zpow_natCast (2 : ℚ) k, ← zpow_add₀ (by norm_num : (2:ℚ) ≠ 0)]
      congr 1
      omega
    have h53 : (2 : ℚ) ^ 53 ≤ 2 * (q * 2 ^ k) := by
      have hq2 : (2 : ℚ) ^ flog2 q.num.toNat q.den * 2 ^ k ≤ q * 2 ^ k :=
        mul_le_mul_of_nonneg_right hlow (le_of_lt hpk)
      rw [hzz] at hq2
      have h52 : ((2 : ℚ) ^ (52 : ℤ)) = 2 ^ 53 / 2 := by
        rw [show ((52 : ℤ)) = ((52 : ℕ) : ℤ) from rfl, zpow_natCast]
        norm_num
      rw [h52] at hq2
      linarith
    rw [Rat.divInt_eq_div]
    simp only [Int.ofNat_eq_natCast, Int.cast_natCast]
    push_cast
    exact div_bound_aux _ q _ hpk h53 hne
  · -- e > 52 : value is nearestEven a (b * 2^k) * 2^k
    set k := (flog2 q.num.toNat q.den - 52).toNat with hkdef
    have hk : (k : ℤ) = flog2 q.num.toNat q.den - 52 := by
      rw [hkdef]
      exact Int.toNat_of_nonneg (by omega)
    have hpk : (0 : ℚ) < (2 : ℚ) ^ k := by positivity
    have hbk : 0 < q.den * 2 ^ k := by positivity
    have hval : ((q.num.toNat : Nat) : ℚ) / ((q.den * 2 ^ k : Nat) : ℚ) = q / 2 ^ k := by
      push_cast
      calc ((q.num.toNat : Nat) : ℚ) / (((q.den : Nat) : ℚ) * 2 ^ k)
          = (((q.num.toNat : Nat) : ℚ) / ((q.den : Nat) : ℚ)) / 2 ^ k := by ring
        _ = q / 2 ^ k := by rw [hab]
    have hne := nearestEven_spec q.num.toNat (q.den * 2 ^ k) hbk
    rw [hval] at hne
    have hzz : (2 : ℚ) ^ flog2 q.num.toNat q.den = (2 : ℚ) ^ (52 : ℤ) * 2 ^ k := by
      rw [← zpow_natCast (2 : ℚ) k, ← zpow_add₀ (by norm_num : (2:ℚ) ≠ 0)]
      congr 1
      omega
    have h53 : (2 : ℚ) ^ k * 2 ^ 53 ≤ 2 * q := by
      have hq2 : (2 : ℚ) ^ (52 : ℤ) * 2 ^ k ≤ q := by rw [← hzz]; exact hlow
      have h52 : ((2 : ℚ) ^ (52 : ℤ)) = 2 ^ 53 / 2 := by
        rw [show ((52 : ℤ)) = ((52 : ℕ) : ℤ) from rfl, zpow_natCast]
        norm_num
      rw [h52] at hq2
      nlinarith [hpk]
    rw [Rat.divInt_eq_div]
    simp only [Int.ofNat_eq_natCast, Int.cast_natCast, Int.cast_one]
    push_cast
    rw [div_one]
    exact mul_bound_aux _ q _ hpk h53 hne

theorem roundF_nonneg (q : ℚ) : 0 ≤ roundF q := by
  simp only [roundF]
  split_ifs with h1 h2
  · exact le_refl 0
  · exact Rat.divInt_nonneg (Int.ofNat_nonneg _) (Int.ofNat_nonneg _)
  · exact Rat.divInt_nonneg (Int.ofNat_nonneg _) (by norm_num)

theorem roundF_pos (q : ℚ) (hq : 0 < q) : 0 < roundF q := by
  have herr := (abs_sub_le_iff.mp (roundF_err q hq)).2
  have hlt : q / 2 ^ 53 < q := div_lt_self hq (by norm_num)
  linarith

theorem roundF_zero : roundF 0 = 0 := by
  simp [roundF]

theorem roundF_le (q : ℚ) (hq : 0 < q) : roundF q ≤ q + q / 2 ^ 53 := by
  have herr := (abs_sub_le_iff.mp (roundF_err q hq)).1
  linarith

theorem le_roundF (q : ℚ) (hq : 0 < q) : q - q / 2 ^ 53 ≤ roundF q := by
  have herr := (abs_sub_le_iff.mp (roundF_err q hq)).2
  linarith

/-- `roundF` is exact on natural numbers below `2 ^ 53` (their conversion to
double is exact). -/
theorem roundF_natCast (n : Nat) (h0 : 0 < n) (h53 : n < 2 ^ 53) :
    roundF ((n : Nat) : ℚ) = ((n : Nat) : ℚ) := by
  have hn0 : (0 : ℚ) < ((n : Nat) : ℚ) := by exact_mod_cast h0
  have hnum : ((n : Nat) : ℚ).num = (n : ℤ) := Rat.num_natCast n
  have hden : ((n : Nat) : ℚ).den = 1 := Rat.den_natCast n
  have hlog1 : log2F 1 = 0 := rfl
  have hflog : flog2 (((n : Nat) : ℚ).num.toNat) (((n : Nat) : ℚ).den) = (Nat.log2 n : ℤ) := by
    rw [hnum, hden]
    have htn : ((n : ℤ)).toNat = n := rfl
    rw [htn]
    simp only [flog2]
    rw [hlog1, log2F_eq]
    rw [if_neg (by
      simp only [pow_zero, mul_one, one_mul, not_lt]
      exact Nat.log2_self_le (by omega))]
    simp
  have hle : flog2 (((n : Nat) : ℚ).num.toNat) (((n : Nat) : ℚ).den) ≤ 52 := by
    rw [hflog]
    have : Nat.log2 n < 53 := (Nat.log2_lt (by omega)).mpr h53
    omega
  simp only [roundF, if_neg (not_le.mpr hn0), if_pos hle]
  rw [hnum, hden]
  have htn : ((n : ℤ)).toNat = n := rfl
  rw [htn]
  have hne1 : ∀ m : Nat, nearestEven m 1 = m := by
    intro m
    simp [nearestEven, Nat.mod_one]
  rw [hne1]
  rw [Rat.divInt_eq_div]
  simp only [Int.ofNat_eq_natCast, Int.cast_natCast]
  push_cast
  rw [mul_div_assoc, div_self (ne_of_gt (by positivity)), mul_one]


theorem divInt_natCast (m n : Nat) :
    Rat.divInt (Int.ofNat m) (Int.ofNat n) = (m : ℚ) / (n : ℚ) := by
  rw [Rat.divInt_eq_div]
  simp only [Int.ofNat_eq_natCast, Int.cast_natCast]

theorem divInt_one_natCast (m : Nat) : Rat.divInt (Int.ofNat m) 1 = (m : ℚ) := by
  rw [Rat.divInt_eq_div]
  simp only [Int.ofNat_eq_natCast, Int.cast_natCast, Int.cast_one, div_one]

/-- `resizeDims` written with rational casts instead of `Rat.divInt`. -/
theorem resizeDims_eq (W H w h : Nat) :
    resizeDims W H w h =
      if roundF ((w : ℚ) / (h : ℚ)) > roundF ((W : ℚ) / (H : ℚ)) then
        (W, (⌊roundF (roundF ((W : ℚ)) / roundF ((w : ℚ) / (h : ℚ)))⌋).toNat)
      else
        ((⌊roundF (roundF ((H : ℚ)) * roundF ((w : ℚ) / (h : ℚ)))⌋).toNat, H) := by
  simp only [resizeDims, divInt_natCast, divInt_one_natCast]


/-- In the wider-than-target branch the computed height never exceeds the
target height (the double-rounding errors are too small to push the
truncation past `H`). -/
theorem resizeDims_snd_le (W H w h : Nat) (hW : 0 < W) (hH : 0 < H)
    (hH2 : H < 2 ^ 52) (hW53 : W < 2 ^ 53) :
    (resizeDims W H w h).2 ≤ H := by
  rw [resizeDims_eq]
  by_cases hc : roundF ((w : ℚ) / (h : ℚ)) > roundF ((W : ℚ) / (H : ℚ))
  · rw [if_pos hc]
    show (⌊roundF (roundF ((W : ℚ)) / roundF ((w : ℚ) / (h : ℚ)))⌋).toNat ≤ H
    have hW0 : (0 : ℚ) < (W : ℚ) := by exact_mod_cast hW
    have hH0 : (0 : ℚ) < (H : ℚ) := by exact_mod_cast hH
    have hτ : (0 : ℚ) < (W : ℚ) / (H : ℚ) := div_pos hW0 hH0
    have htpos : 0 < roundF ((W : ℚ) / (H : ℚ)) := roundF_pos _ hτ
    have hrpos : 0 < roundF ((w : ℚ) / (h : ℚ)) := lt_trans htpos hc
    rw [roundF_natCast W hW hW53]
    have ht_low : (W : ℚ) / (H : ℚ) - ((W : ℚ) / (H : ℚ)) / 2 ^ 53 ≤
        roundF ((W : ℚ) / (H : ℚ)) := le_roundF _ hτ
    have hr_gt : ((W : ℚ) / (H : ℚ)) * (1 - 1 / 2 ^ 53) < roundF ((w : ℚ) / (h : ℚ)) := by
      have hexp : ((W : ℚ) / (H : ℚ)) * (1 - 1 / 2 ^ 53) =
          (W : ℚ) / (H : ℚ) - ((W : ℚ) / (H : ℚ)) / 2 ^ 53 := by ring
      linarith
    have hden_pos : (0 : ℚ) < ((W : ℚ) / (H : ℚ)) * (1 - 1 / 2 ^ 53) :=
      mul_pos hτ (by norm_num)
    have hεne : (1 : ℚ) - 1 / 2 ^ 53 ≠ 0 := by norm_num
    have hx_pos : (0 : ℚ) < (W : ℚ) / roundF ((w : ℚ) / (h : ℚ)) := div_pos hW0 hrpos
    have hx_lt : (W : ℚ) / roundF ((w : ℚ) / (h : ℚ)) <
        (W : ℚ) / (((W : ℚ) / (H : ℚ)) * (1 - 1 / 2 ^ 53)) :=
      div_lt_div_of_pos_left hW0 hden_pos hr_gt
    have hsimp : (W : ℚ) / (((W : ℚ) / (H : ℚ)) * (1 - 1 / 2 ^ 53)) =
        (H : ℚ) / (1 - 1 / 2 ^ 53) := by
      field_simp
      ring
    rw [hsimp] at hx_lt
    have hround := roundF_le _ hx_pos
    have hH3 : (H : ℚ) ≤ 2 ^ 52 - 1 := by
      have hn : H ≤ 2 ^ 52 - 1 := by omega
      have hq : (H : ℚ) ≤ ((2 ^ 52 - 1 : Nat) : ℚ) := by exact_mod_cast hn
      calc (H : ℚ) ≤ ((2 ^ 52 - 1 : Nat) : ℚ) := hq
        _ = 2 ^ 52 - 1 := by push_cast; norm_num
    have hup : (H : ℚ) / (1 - 1 / 2 ^ 53) * (1 + 1 / 2 ^ 53) ≤ (H : ℚ) + 1 := by
      rw [div_mul_eq_mul_div, div_le_iff₀ (by norm_num : (0:ℚ) < 1 - 1 / 2 ^ 53)]
      have hgoal : (H : ℚ) * (1 + 1 / 2 ^ 53) - ((H : ℚ) + 1) * (1 - 1 / 2 ^ 53) =
          (2 * (H : ℚ) + 1) / 2 ^ 53 - 1 := by ring
      nlinarith [hH3]
    have hmul : (W : ℚ) / roundF ((w : ℚ) / (h : ℚ)) * (1 + 1 / 2 ^ 53) <
        (H : ℚ) / (1 - 1 / 2 ^ 53) * (1 + 1 / 2 ^ 53) :=
      mul_lt_mul_of_pos_right hx_lt (by norm_num)
    have hfinal : roundF ((W : ℚ) / roundF ((w : ℚ) / (h : ℚ))) < (H : ℚ) + 1 := by
      have hexp2 : (W : ℚ) / roundF ((w : ℚ) / (h : ℚ)) +
          ((W : ℚ) / roundF ((w : ℚ) / (h : ℚ))) / 2 ^ 53 =
          (W : ℚ) / roundF ((w : ℚ) / (h : ℚ)) * (1 + 1 / 2 ^ 53) := by ring
      linarith
    have hfl : ⌊roundF ((W : ℚ) / roundF ((w : ℚ) / (h : ℚ)))⌋ < (H : ℤ) + 1 := by
      rw [Int.floor_lt]
      push_cast
      exact hfinal
    exact Int.toNat_le.mpr (by omega)
  · rw [if_neg hc]

/-- In the taller-than-target branch the computed width never exceeds the
target width. -/
theorem resizeDims_fst_le (W H w h : Nat) (hW : 0 < W) (hH : 0 < H)
    (hW2 : W < 2 ^ 52) (hH53 : H < 2 ^ 53) :
    (resizeDims W H w h).1 ≤ W := by
  rw [resizeDims_eq]
  by_cases hc : roundF ((w : ℚ) / (h : ℚ)) > roundF ((W : ℚ) / (H : ℚ))
  · rw [if_pos hc]
  · rw [if_neg hc]
    show (⌊roundF (roundF ((H : ℚ)) * roundF ((w : ℚ) / (h : ℚ)))⌋).toNat ≤ W
    have hW0 : (0 : ℚ) < (W : ℚ) := by exact_mod_cast hW
    have hH0 : (0 : ℚ) < (H : ℚ) := by exact_mod_cast hH
    have hτ : (0 : ℚ) < (W : ℚ) / (H : ℚ) := div_pos hW0 hH0
    rw [roundF_natCast H hH hH53]
    have hr_nonneg : 0 ≤ roundF ((w : ℚ) / (h : ℚ)) := roundF_nonneg _
    rcases eq_or_lt_of_le hr_nonneg with hr0 | hrpos
    · rw [← hr0, mul_zero, roundF_zero]
      simp
    · have ht_up : roundF ((W : ℚ) / (H : ℚ)) ≤
          (W : ℚ) / (H : ℚ) + ((W : ℚ) / (H : ℚ)) / 2 ^ 53 := roundF_le _ hτ
      have hr_le : roundF ((w : ℚ) / (h : ℚ)) ≤
          (W : ℚ) / (H : ℚ) + ((W : ℚ) / (H : ℚ)) / 2 ^ 53 :=
        le_trans (not_lt.mp hc) ht_up
      have hy_pos : (0 : ℚ) < (H : ℚ) * roundF ((w : ℚ) / (h : ℚ)) :=
        mul_pos hH0 hrpos
      have hy_le : (H : ℚ) * roundF ((w : ℚ) / (h : ℚ)) ≤ (W : ℚ) * (1 + 1 / 2 ^ 53) := by
        have h1 : (H : ℚ) * ((W : ℚ) / (H : ℚ) + ((W : ℚ) / (H : ℚ)) / 2 ^ 53) =
            (W : ℚ) * (1 + 1 / 2 ^ 53) := by
          field_simp
          ring
        calc (H : ℚ) * roundF ((w : ℚ) / (h : ℚ))
            ≤ (H : ℚ) * ((W : ℚ) / (H : ℚ) + ((W : ℚ) / (H : ℚ)) / 2 ^ 53) :=
              mul_le_mul_of_nonneg_left hr_le (le_of_lt hH0)
          _ = (W : ℚ) * (1 + 1 / 2 ^ 53) := h1
      have hround := roundF_le _ hy_pos
      have hW3 : (W : ℚ) ≤ 2 ^ 52 - 1 := by
        have hn : W ≤ 2 ^ 52 - 1 := by omega
        have hq : (W : ℚ) ≤ ((2 ^ 52 - 1 : Nat) : ℚ) := by exact_mod_cast hn
        calc (W : ℚ) ≤ ((2 ^ 52 - 1 : Nat) : ℚ) := hq
          _ = 2 ^ 52 - 1 := by push_cast; norm_num
      have hfinal : roundF ((H : ℚ) * roundF ((w : ℚ) / (h : ℚ))) < (W : ℚ) + 1 := by
        have hchain : (H : ℚ) * roundF ((w : ℚ) / (h : ℚ)) +
            ((H : ℚ) * roundF ((w : ℚ) / (h : ℚ))) / 2 ^ 53 ≤
            (W : ℚ) * (1 + 1 / 2 ^ 53) * (1 + 1 / 2 ^ 53) := by
          have hstep : (H : ℚ) * roundF ((w : ℚ) / (h : ℚ)) * (1 + 1 / 2 ^ 53) ≤
              (W : ℚ) * (1 + 1 / 2 ^ 53) * (1 + 1 / 2 ^ 53) :=
            mul_le_mul_of_nonneg_right hy_le (by norm_num)
          nlinarith [hy_pos]
        have hsmall : (W : ℚ) * (1 + 1 / 2 ^ 53) * (1 + 1 / 2 ^ 53) < (W : ℚ) + 1 := by
          nlinarith [hW3, hW0]
        linarith
      have hfl : ⌊roundF ((H : ℚ) * roundF ((w : ℚ) / (h : ℚ)))⌋ < (W : ℤ) + 1 := by
        rw [Int.floor_lt]
        push_cast
        exact hfinal
      exact Int.toNat_le.mpr (by omega)

/-- A zero-width source always computes a zero resized width (the else branch
is taken because the rounded ratio is `0.0`, and `H * 0.0` truncates to 0). -/
theorem resizeDims_w0 (W H h : Nat) : (resizeDims W H 0 h).1 = 0 := by
  rw [resizeDims_eq]
  have hz : ((0 : Nat) : ℚ) / (h : ℚ) = 0 := by
    rw [Nat.cast_zero, zero_div]
  rw [hz, roundF_zero]
  rw [if_neg (by
    simp only [gt_iff_lt, not_lt]
    exact roundF_nonneg _)]
  rw [mul_zero, roundF_zero]
  simp


/-- Reading a pixel of a color grid, as an unfolding equation. -/
theorem getCPx_def (g : CGrid) (y x : Nat) :
    getCPx g y x = (g.getD y []).getD x (255, 255, 255) := rfl

theorem cheight_pasteCanvas (W H ox oy : Nat) (r : CGrid) :
    cheight (pasteCanvas W H ox oy r) = H := by
  simp [pasteCanvas, cheight]

theorem cwidth_pasteCanvas (W H ox oy : Nat) (r : CGrid) (hH : 0 < H) :
    cwidth (pasteCanvas W H ox oy r) = W := by
  unfold cwidth pasteCanvas
  have hy2 : 0 < ((List.range H).map (fun y =>
      (List.range W).map (fun x =>
        if oy ≤ y ∧ y < oy + cheight r ∧ ox ≤ x ∧ x < ox + cwidth r then
          getCPx r (y - oy) (x - ox)
        else (255, 255, 255)))).length := by
    simpa using hH
  rw [List.getD_eq_getElem _ [] hy2, List.getElem_map, List.getElem_range]
  simp

theorem getCPx_pasteCanvas (W H ox oy : Nat) (r : CGrid) {y x : Nat}
    (hy : y < H) (hx : x < W) :
    getCPx (pasteCanvas W H ox oy r) y x =
      if oy ≤ y ∧ y < oy + cheight r ∧ ox ≤ x ∧ x < ox + cwidth r then
        getCPx r (y - oy) (x - ox)
      else (255, 255, 255) := by
  rw [getCPx_def (pasteCanvas W H ox oy r) y x]
  unfold pasteCanvas
  have hy2 : y < ((List.range H).map (fun yy =>
      (List.range W).map (fun xx =>
        if oy ≤ yy ∧ yy < oy + cheight r ∧ ox ≤ xx ∧ xx < ox + cwidth r then
          getCPx r (yy - oy) (xx - ox)
        else (255, 255, 255)))).length := by
    simpa using hy
  rw [List.getD_eq_getElem _ [] hy2, List.getElem_map, List.getElem_range]
  have hx2 : x < ((List.range W).map (fun xx =>
      if oy ≤ y ∧ y < oy + cheight r ∧ ox ≤ xx ∧ xx < ox + cwidth r then
        getCPx r (y - oy) (xx - ox)
      else (255, 255, 255))).length := by
    simpa using hx
  rw [List.getD_eq_getElem _ _ hx2, List.getElem_map, List.getElem_range]

/-- Claim C3, amended: for a source with positive height and a positive
target below `2 ^ 52`, the resized dimensions follow the source formulas in
IEEE-754 double precision with Python `int()` truncation (floor) — not
rounding, and not exact rational arithmetic: `new_height = int(W / r)` in the
wider branch and `new_width = int(H * r)` otherwise, where
`r = fl(w / h)` is the correctly rounded double ratio; the conversions of `W`
and `H` to double are exact below `2 ^ 53`.  When both computed dimensions
are positive (otherwise Pillow raises, see C9), the result is the `W` by `H`
white canvas with the resampled image pasted at the centered offsets
`(W - nw) / 2` and `(H - nh) / 2`, white outside the pasted box, and the
pasted box never exceeds the canvas (no cropping, despite the floating-point
rounding of the ratios).  The resampler is a parameter whose documented size
contract is a hypothesis. -/
theorem c3_fit_amended (resample : CGrid → Nat → Nat → CGrid) (W H : Nat) (img : CGrid)
    (hW : 0 < W) (hW2 : W < 2 ^ 52) (hH : 0 < H) (hH2 : H < 2 ^ 52)
    (hh : 0 < cheight img)
    (hres : ∀ i nw nh, cheight (resample i nw nh) = nh ∧
      (0 < nh → cwidth (resample i nw nh) = nw)) :
    ∀ nw nh, resizeDims W H (cwidth img) (cheight img) = (nw, nh) →
      0 < nw → 0 < nh →
      (if roundF ((cwidth img : ℚ) / (cheight img : ℚ)) > roundF ((W : ℚ) / (H : ℚ)) then
          nw = W ∧ (nh : ℤ) =
            ⌊roundF ((W : ℚ) / roundF ((cwidth img : ℚ) / (cheight img : ℚ)))⌋
        else (nw : ℤ) =
            ⌊roundF ((H : ℚ) * roundF ((cwidth img : ℚ) / (cheight img : ℚ)))⌋ ∧ nh = H) ∧
      nw ≤ W ∧ nh ≤ H ∧
      _resize_maintain_aspect resample W H img =
        .ok (pasteCanvas W H ((W - nw) / 2) ((H - nh) / 2) (resample img nw nh)) ∧
      cheight (pasteCanvas W H ((W - nw) / 2) ((H - nh) / 2) (resample img nw nh)) = H ∧
      cwidth (pasteCanvas W H ((W - nw) / 2) ((H - nh) / 2) (resample img nw nh)) = W ∧
      (∀ y x, y < H → x < W →
        getCPx (pasteCanvas W H ((W - nw) / 2) ((H - nh) / 2) (resample img nw nh)) y x =
          if (H - nh) / 2 ≤ y ∧ y < (H - nh) / 2 + nh ∧
              (W - nw) / 2 ≤ x ∧ x < (W - nw) / 2 + nw then
            getCPx (resample img nw nh) (y - (H - nh) / 2) (x - (W - nw) / 2)
          else (255, 255, 255)) := by
  intro nw nh hd hnw hnh
  have hW53 : W < 2 ^ 53 := lt_trans hW2 (by norm_num)
  have hH53 : H < 2 ^ 53 := lt_trans hH2 (by norm_num)
  have hfor := resizeDims_eq W H (cwidth img) (cheight img)
  rw [hd, roundF_natCast W hW hW53, roundF_natCast H hH hH53] at hfor
  have hnwle : nw ≤ W := by
    have := resizeDims_fst_le W H (cwidth img) (cheight img) hW hH hW2 hH53
    rw [hd] at this
    exact this
  have hnhle : nh ≤ H := by
    have := resizeDims_snd_le W H (cwidth img) (cheight img) hW hH hH2 hW53
    rw [hd] at this
    exact this
  have hok : _resize_maintain_aspect resample W H img =
      .ok (pasteCanvas W H ((W - nw) / 2) ((H - nh) / 2) (resample img nw nh)) := by
    unfold _resize_maintain_aspect
    rw [if_neg (by omega), if_neg (by omega), hd]
    rw [if_neg (by dsimp only; omega)]
  refine ⟨?_, hnwle, hnhle, hok, cheight_pasteCanvas _ _ _ _ _,
    cwidth_pasteCanvas _ _ _ _ _ hH, ?_⟩
  · by_cases hc : roundF ((cwidth img : ℚ) / (cheight img : ℚ)) > roundF ((W : ℚ) / (H : ℚ))
    · rw [if_pos hc]
      rw [if_pos hc, Prod.mk.injEq] at hfor
      obtain ⟨h1, h2⟩ := hfor
      refine ⟨h1, ?_⟩
      rw [h2]
      exact Int.toNat_of_nonneg (Int.floor_nonneg.mpr (roundF_nonneg _))
    · rw [if_neg hc]
      rw [if_neg hc, Prod.mk.injEq] at hfor
      obtain ⟨h1, h2⟩ := hfor
      refine ⟨?_, h2⟩
      rw [h1]
      exact Int.toNat_of_nonneg (Int.floor_nonneg.mpr (roundF_nonneg _))
  · intro y x hy hx
    rw [getCPx_pasteCanvas W H _ _ _ hy hx]
    obtain ⟨hrh, hrw⟩ := hres img nw nh
    rw [hrh, hrw hnh]

set_option maxRecDepth 10000 in
/-- Claim C3 as stated fails at concrete sources into the 400 by 300 target:
a 3 by 2 source computes the resized height as Python `int(400 / 1.5) = 266`
(truncation), not the claimed `round(400 / 1.5) = 267`; and an 11 by 15
source computes the resized width as `int(300 * (11 / 15)) = 219` — the
double product is just below 220 — where the claim prescribes
`round(300 * (11 / 15)) = 220` (which here also equals the exact rational
floor, so no floor-based reading of the formula is faithful either). -/
theorem c3_counterexample :
    resizeDims 400 300 3 2 = (400, 266) ∧
      (266 : ℤ) ≠ round ((400 : ℚ) / ((3 : ℚ) / (2 : ℚ))) ∧
      resizeDims 400 300 11 15 = (219, 300) ∧
      (219 : ℤ) ≠ round ((300 : ℚ) * ((11 : ℚ) / (15 : ℚ))) := by
  refine ⟨?_, ?_, ?_, ?_⟩
  · with_unfolding_all decide
  · with_unfolding_all decide
  · with_unfolding_all decide
  · with_unfolding_all decide

theorem stubResample_contract (i : CGrid) (nw nh : Nat) :
    cheight (stubResample i nw nh) = nh ∧
      (0 < nh → cwidth (stubResample i nw nh) = nw) := by
  refine ⟨by simp [stubResample, cheight], fun h => ?_⟩
  unfold stubResample cwidth
  rcases nh with _ | m
  · omega
  · simp [List.replicate_succ]

set_option maxRecDepth 10000 in
/-- Witness for the amended claim C3: a 1 by 2 source into the 400 by 300
target resizes to 150 by 300 and is pasted at offsets (125, 0). -/
theorem c3_fit_amended_witness :
    _resize_maintain_aspect stubResample 400 300
        [[((1 : ℚ), (2 : ℚ), (3 : ℚ))], [((4 : ℚ), (5 : ℚ), (6 : ℚ))]] =
      .ok (pasteCanvas 400 300 ((400 - 150) / 2) ((300 - 300) / 2)
        (stubResample [[((1 : ℚ), (2 : ℚ), (3 : ℚ))], [((4 : ℚ), (5 : ℚ), (6 : ℚ))]] 150 300)) :=
  (c3_fit_amended stubResample 400 300
    [[((1 : ℚ), (2 : ℚ), (3 : ℚ))], [((4 : ℚ), (5 : ℚ), (6 : ℚ))]]
    (by decide) (by decide) (by decide) (by decide) (by decide)
    (fun i nw nh => stubResample_contract i nw nh) 150 300
    (by with_unfolding_all decide) (by decide) (by decide)).2.2.2.1

/-! The cache layer. -/

theorem served_processAndCache (cfg : TCfg) (st : TState) (sp : String) :
    served (processAndCache cfg st sp) = false := by
  unfold processAndCache served
  rcases hp : process_image cfg.E cfg.resample 400 300 ((st.src sp).map (·.decoded))
      cfg.dither_mode cfg.contrast cfg.brightness cfg.sharpness with e | img <;>
    rw [hp] <;>
    first
      | rfl
      | (split_ifs <;> rfl)

/-- Claim C5: with an existing cache entry and an existing source, the cached
artifact is served exactly when the cache mtime is at least the source mtime;
with an older cache the call instead runs the full miss path (process and
cache). -/
theorem c5_cache_freshness (cfg : TCfg) (st : TState) (sp : String)
    (cf : CacheFile) (sf : SrcFile)
    (hc : st.cache (cachePathOf cfg sp) = some cf) (hs : st.src sp = some sf) :
    (served (get_processed_image cfg st sp) = true ↔ cf.mtime ≥ sf.mtime) ∧
      (cf.mtime ≥ sf.mtime → get_processed_image cfg st sp = .ok (cf.img, st, true)) ∧
      (¬ cf.mtime ≥ sf.mtime →
        get_processed_image cfg st sp = processAndCache cfg st sp) := by
  unfold get_processed_image
  rw [hc, hs]
  dsimp only
  by_cases h : cf.mtime ≥ sf.mtime
  · rw [if_pos h]
    refine ⟨?_, fun _ => rfl, fun hn => absurd h hn⟩
    simp [served, h]
  · rw [if_neg h]
    refine ⟨?_, fun hp => absurd hp h, fun _ => rfl⟩
    rw [served_processAndCache]
    simp [h]

/-- Witness for C5: a fresh cache entry (mtime 20, source mtime 10) is served
as-is. -/
theorem c5_cache_freshness_witness :
    get_processed_image cfgA stFresh "images/queue/photo.jpg" =
      .ok (bmpA, stFresh, true) :=
  (c5_cache_freshness cfgA stFresh "images/queue/photo.jpg" ⟨20, bmpA⟩
    ⟨10, some srcImgA⟩ (by simp [stFresh]) (by simp [stFresh])).2.1 (by norm_num)

/-- Claim C7, amended: on a cache miss, when processing succeeds but
persisting the bitmap fails, `get_processed_image` raises instead of
returning the in-memory bitmap — the save is not guarded by any handler. -/
theorem c7_save_failure_propagates (cfg : TCfg) (st : TState) (sp : String)
    (hmiss : st.cache (cachePathOf cfg sp) = none)
    (hok : (process_image cfg.E cfg.resample 400 300 ((st.src sp).map (·.decoded))
        cfg.dither_mode cfg.contrast cfg.brightness cfg.sharpness).isOk = true)
    (hfail : cfg.saveFails (cachePathOf cfg sp) = true) :
    get_processed_image cfg st sp = .error .osError := by
  unfold get_processed_image
  rw [hmiss]
  dsimp only
  unfold processAndCache
  rcases hp : process_image cfg.E cfg.resample 400 300 ((st.src sp).map (·.decoded))
      cfg.dither_mode cfg.contrast cfg.brightness cfg.sharpness with e | img
  · rw [hp] at hok
    simp [Except.isOk, Except.toBool] at hok
  · rw [hp, hfail]
    simp

/-- Claim C7 as stated fails concretely: with an empty cache, a decodable
source and a failing cache write, the caller receives an exception, not the
processed bitmap. -/
theorem c7_counterexample :
    get_processed_image cfgBad stEmpty "images/queue/photo.jpg" =
      .error .osError := by
  with_unfolding_all rfl

/-- Witness for the amended claim C7, at a concrete state with a decodable
source, an empty cache and failing writes. -/
theorem c7_save_failure_propagates_witness :
    get_processed_image cfgBad stBatch "images/queue/photo.jpg" =
      .error .osError :=
  c7_save_failure_propagates cfgBad stBatch "images/queue/photo.jpg"
    (by simp [stBatch]) (by with_unfolding_all rfl) rfl

/-! Batch preprocessing. -/

theorem preprocess_all_def (cfg : TCfg) (st : TState) (paths : List String) :
    preprocess_all cfg st paths =
      paths.foldl
        (fun acc p =>
          match get_processed_image cfg acc.1 p with
          | .ok (_, stNew, _) => (stNew, acc.2 ++ [(p, true)])
          | .error _ => (acc.1, acc.2 ++ [(p, false)])) (st, []) := rfl

theorem preprocess_all_go (cfg : TCfg) :
    ∀ (paths : List String) (st : TState) (acc : List (String × Bool)),
      paths.foldl
        (fun acc2 p =>
          match get_processed_image cfg acc2.1 p with
          | .ok (_, stNew, _) => (stNew, acc2.2 ++ [(p, true)])
          | .error _ => (acc2.1, acc2.2 ++ [(p, false)]))
        (st, acc) =
      ((preprocess_all cfg st paths).1, acc ++ (preprocess_all cfg st paths).2) := by
  intro paths
  induction paths with
  | nil =>
    intro st acc
    simp [preprocess_all]
  | cons p ps ih =>
    intro st acc
    rw [List.foldl_cons]
    simp only [preprocess_all_def, List.foldl_cons]
    rcases hg : get_processed_image cfg st p with e | r
    · simp only [hg]
      rw [ih, ih]
      simp [List.append_assoc]
    · obtain ⟨img, st2, b⟩ := r
      simp only [hg]
      rw [ih, ih]
      simp [List.append_assoc]

theorem preprocess_all_map_fst (cfg : TCfg) :
    ∀ (st : TState) (paths : List String),
      (preprocess_all cfg st paths).2.map Prod.fst = paths := by
  intro st paths
  induction paths generalizing st with
  | nil => rfl
  | cons p ps ih =>
    simp only [preprocess_all_def, List.foldl_cons]
    rcases hg : get_processed_image cfg st p with e | r
    · simp only [hg]
      rw [preprocess_all_go]
      simp [ih st]
    · obtain ⟨img, st2, b⟩ := r
      simp only [hg]
      rw [preprocess_all_go]
      simp [ih st2]

/-- Claim C8: `preprocess_all` attempts every path in order, records an entry
for each (failures included), and splits over any decomposition of the path
list — so no per-item failure aborts the batch. -/
theorem c8_preprocess_attempts_all (cfg : TCfg) (st : TState) (paths : List String) :
    ((preprocess_all cfg st paths).2.map Prod.fst = paths) ∧
      (∀ l₁ l₂, paths = l₁ ++ l₂ →
        preprocess_all cfg st paths =
          ((preprocess_all cfg (preprocess_all cfg st l₁).1 l₂).1,
            (preprocess_all cfg st l₁).2 ++
              (preprocess_all cfg (preprocess_all cfg st l₁).1 l₂).2)) := by
  refine ⟨preprocess_all_map_fst cfg st paths, ?_⟩
  intro l₁ l₂ hsplit
  subst hsplit
  rw [preprocess_all_def cfg st (l₁ ++ l₂), List.foldl_append, ← preprocess_all_def]
  rcases hpp : preprocess_all cfg st l₁ with ⟨s1, a1⟩
  rw [preprocess_all_go cfg l₂ s1 a1]

/-- Witness for C8: a two-item batch with one decodable and one broken source
still attempts both paths in order. -/
theorem c8_preprocess_attempts_all_witness :
    ((preprocess_all cfgA stBatch
        ["images/queue/photo.jpg", "images/queue/broken.jpg"]).2.map Prod.fst =
      ["images/queue/photo.jpg", "images/queue/broken.jpg"]) ∧
      preprocess_all cfgA stBatch ["images/queue/photo.jpg", "images/queue/broken.jpg"] =
        ((preprocess_all cfgA
            (preprocess_all cfgA stBatch ["images/queue/photo.jpg"]).1
            ["images/queue/broken.jpg"]).1,
          (preprocess_all cfgA stBatch ["images/queue/photo.jpg"]).2 ++
            (preprocess_all cfgA
              (preprocess_all cfgA stBatch ["images/queue/photo.jpg"]).1
              ["images/queue/broken.jpg"]).2) :=
  ⟨(c8_preprocess_attempts_all cfgA stBatch _).1,
    (c8_preprocess_attempts_all cfgA stBatch _).2
      ["images/queue/photo.jpg"] ["images/queue/broken.jpg"] rfl⟩

/-! Error behaviour of the compositor and pipeline. -/

/-- Claim C9, amended: the code performs no dimension validation and defines
no `DimensionError` (nor `DecodeError`) class; its failures on degenerate
dimensions are the underlying library and runtime exceptions.  With a
positive target height, the fit operation raises `ZeroDivisionError` exactly
when the source height is zero (the `img.width / img.height` division), and
otherwise Pillow raises `ValueError` from `img.resize` exactly when a
computed resized dimension truncates to zero — which covers every zero-width
source, and also extreme-aspect sources whose dimensions are both positive;
in all remaining cases fit succeeds.  An unreadable source surfaces as the
decoder exception (`UnidentifiedImageError`), and a missing file as
`FileNotFoundError`. -/
theorem c9_fit_error_characterization (resample : CGrid → Nat → Nat → CGrid)
    (W H : Nat) (hH : 0 < H) (E : EnhanceFns) (mode : String) (c b s : ℚ) :
    (∀ img : CGrid,
      _resize_maintain_aspect resample W H img = .error .zeroDivision ↔ cheight img = 0) ∧
    (∀ img : CGrid, cheight img ≠ 0 →
      (_resize_maintain_aspect resample W H img = .error .valueError ↔
        ((resizeDims W H (cwidth img) (cheight img)).1 = 0 ∨
          (resizeDims W H (cwidth img) (cheight img)).2 = 0))) ∧
    (∀ img : CGrid,
      (∃ e, _resize_maintain_aspect resample W H img = .error e) ↔
        (cheight img = 0 ∨ (resizeDims W H (cwidth img) (cheight img)).1 = 0 ∨
          (resizeDims W H (cwidth img) (cheight img)).2 = 0)) ∧
    (∀ img : CGrid, cwidth img = 0 → 0 < cheight img →
      _resize_maintain_aspect resample W H img = .error .valueError) ∧
    process_image E resample W H (some none) mode c b s = .error .unidentifiedImage ∧
    process_image E resample W H none mode c b s = .error .fileNotFound := by
  have hzero : ∀ img : CGrid, cheight img = 0 →
      _resize_maintain_aspect resample W H img = .error .zeroDivision := by
    intro img h0
    unfold _resize_maintain_aspect
    rw [if_pos h0]
  have hstep : ∀ img : CGrid, cheight img ≠ 0 →
      _resize_maintain_aspect resample W H img =
        if (resizeDims W H (cwidth img) (cheight img)).1 = 0 ∨
            (resizeDims W H (cwidth img) (cheight img)).2 = 0 then
          .error .valueError
        else
          .ok (pasteCanvas W H
            ((W - (resizeDims W H (cwidth img) (cheight img)).1) / 2)
            ((H - (resizeDims W H (cwidth img) (cheight img)).2) / 2)
            (resample img (resizeDims W H (cwidth img) (cheight img)).1
              (resizeDims W H (cwidth img) (cheight img)).2)) := by
    intro img h0
    unfold _resize_maintain_aspect
    rw [if_neg h0, if_neg (by omega)]
  have hzdiff : ∀ img : CGrid, cheight img ≠ 0 →
      _resize_maintain_aspect resample W H img ≠ .error .zeroDivision := by
    intro img h0 hcontra
    rw [hstep img h0] at hcontra
    split_ifs at hcontra with hv
    exact PyErr.noConfusion (Except.error.inj hcontra)
  have hval : ∀ img : CGrid, cheight img ≠ 0 →
      (_resize_maintain_aspect resample W H img = .error .valueError ↔
        ((resizeDims W H (cwidth img) (cheight img)).1 = 0 ∨
          (resizeDims W H (cwidth img) (cheight img)).2 = 0)) := by
    intro img h0
    rw [hstep img h0]
    constructor
    · intro he
      split_ifs at he with hv
      exact hv
    · intro hv
      rw [if_pos hv]
  refine ⟨?_, hval, ?_, ?_, rfl, rfl⟩
  · intro img
    constructor
    · intro he
      by_contra h0
      exact hzdiff img h0 he
    · exact hzero img
  · intro img
    constructor
    · rintro ⟨e, he⟩
      by_cases h0 : cheight img = 0
      · exact Or.inl h0
      · refine Or.inr ?_
        by_contra hv
        push_neg at hv
        rw [hstep img h0, if_neg (by omega)] at he
        exact Except.noConfusion he
    · intro hcase
      rcases hcase with h0 | hv | hv
      · exact ⟨.zeroDivision, hzero img h0⟩
      · by_cases h0 : cheight img = 0
        · exact ⟨.zeroDivision, hzero img h0⟩
        · exact ⟨.valueError, (hval img h0).mpr (Or.inl hv)⟩
      · by_cases h0 : cheight img = 0
        · exact ⟨.zeroDivision, hzero img h0⟩
        · exact ⟨.valueError, (hval img h0).mpr (Or.inr hv)⟩
  · intro img hw0 hhpos
    refine (hval img (by omega)).mpr (Or.inl ?_)
    rw [hw0]
    exact resizeDims_w0 W H (cheight img)

set_option maxRecDepth 10000 in
/-- Claim C9 as stated fails concretely: the two zero-dimension failure modes
raise two different built-in exceptions — a zero-width ten-row source makes
Pillow `resize` raise `ValueError` (the computed width `int(300 * 0.0)` is
zero), while a zero-height source raises `ZeroDivisionError` from the ratio
division — so there is no single `DimensionError` class raised whenever a
dimension is zero, and indeed none exists in the code. -/
theorem c9_counterexample :
    _resize_maintain_aspect stubResample 400 300 (List.replicate 10 ([] : List RGB)) =
      .error .valueError ∧
    _resize_maintain_aspect stubResample 400 300 ([] : CGrid) =
      .error .zeroDivision ∧
    PyErr.valueError ≠ PyErr.zeroDivision := by
  refine ⟨?_, rfl, by decide⟩
  with_unfolding_all rfl

set_option maxRecDepth 10000 in
/-- Witness for the amended claim C9 at concrete arguments: the zero-width
source raises Pillow's `ValueError` and the undecodable source raises
`UnidentifiedImageError`. -/
theorem c9_fit_error_characterization_witness :
    _resize_maintain_aspect stubResample 400 300
        (List.replicate 9 ([] : List RGB)) = .error .valueError ∧
    process_image enhId stubResample 400 300 (some none) "atkinson" 1 1 1 =
      .error .unidentifiedImage :=
  ⟨(c9_fit_error_characterization stubResample 400 300 (by decide) enhId
      "atkinson" 1 1 1).2.2.2.1 (List.replicate 9 []) rfl (by decide),
    (c9_fit_error_characterization stubResample 400 300 (by decide) enhId
      "atkinson" 1 1 1).2.2.2.2.1⟩

/-! The cache key. -/

theorem md5Bytes_length (msg : List Nat) : (md5Bytes msg).length = 16 := by
  simp [md5Bytes, wordBytes]

theorem length_flatMap_pair (f g : Nat → Char) :
    ∀ l : List Nat, (l.flatMap (fun b => [f b, g b])).length = 2 * l.length := by
  intro l
  induction l with
  | nil => rfl
  | cons a l ih =>
    simp only [List.flatMap_cons, List.length_append, ih, List.length_cons]
    simp
    omega

theorem md5Hex_length (s : String) : (md5Hex s).length = 32 := by
  unfold md5Hex
  show ((md5Bytes (strBytes s)).flatMap
    (fun b => [hexChar (b / 16), hexChar (b % 16)])).length = 32
  rw [length_flatMap_pair (fun b => hexChar (b / 16)) (fun b => hexChar (b % 16))
    (md5Bytes (strBytes s)), md5Bytes_length]

theorem hexChar_mem (n : Nat) : hexChar n ∈ hexDigits := by
  unfold hexChar
  rw [List.getD_eq_getElem?_getD]
  rcases h : hexDigits[n]? with _ | c
  · simp only [Option.getD]
    decide
  · have hm := List.getElem?_mem h
    simpa [Option.getD] using hm

/-- Claim C10: the cache filename is a function of the source file name
alone — the stem of the name, an underscore, the first eight hexadecimal
characters of the MD5 digest of the name, and the `.png` extension — and is
independent of the processing parameters; consequently two transfers
configured with different dither modes or enhancement factors but the same
cache directory serve the identical cached bitmap on a fresh hit, and
changing parameters never triggers reprocessing. -/
theorem c10_cache_key_name_only :
    (∀ p q : String, pathName p = pathName q →
      _get_cache_filename p = _get_cache_filename q) ∧
    (∀ p : String,
      _get_cache_filename p =
        stemOfName (pathName p) ++ "_" ++ (md5Hex (pathName p)).take 8 ++ ".png" ∧
      ((md5Hex (pathName p)).take 8).data.length = 8 ∧
      ∀ c ∈ ((md5Hex (pathName p)).take 8).data, c ∈ hexDigits) ∧
    (∀ (cfg₁ cfg₂ : TCfg) (st : TState) (sp : String) (cf : CacheFile) (sf : SrcFile),
      cfg₁.processedDir = cfg₂.processedDir →
      st.cache (cachePathOf cfg₁ sp) = some cf →
      st.src sp = some sf →
      cf.mtime ≥ sf.mtime →
      get_processed_image cfg₁ st sp = .ok (cf.img, st, true) ∧
      get_processed_image cfg₂ st sp = .ok (cf.img, st, true)) := by
  refine ⟨?_, ?_, ?_⟩
  · intro p q h
    unfold _get_cache_filename
    rw [h]
  · intro p
    refine ⟨rfl, ?_, ?_⟩
    · rw [String.data_take, List.length_take]
      have h32 := md5Hex_length (pathName p)
      simp only [String.length] at h32
      omega
    · intro c hc
      rw [String.data_take] at hc
      have hc2 := List.mem_of_mem_take hc
      have hdata : (md5Hex (pathName p)).data =
          (md5Bytes (strBytes (pathName p))).flatMap
            (fun b => [hexChar (b / 16), hexChar (b % 16)]) := rfl
      rw [hdata, List.mem_flatMap] at hc2
      obtain ⟨b, _, hb⟩ := hc2
      simp only [List.mem_cons, List.not_mem_nil, or_false] at hb
      rcases hb with hb | hb <;> (subst hb; exact hexChar_mem _)
  · intro cfg₁ cfg₂ st sp cf sf hdir hc hs hfresh
    have hpath : cachePathOf cfg₂ sp = cachePathOf cfg₁ sp := by
      unfold cachePathOf
      rw [hdir]
    have hget : ∀ cfg : TCfg, st.cache (cachePathOf cfg sp) = some cf →
        get_processed_image cfg st sp = .ok (cf.img, st, true) := by
      intro cfg hcc
      unfold get_processed_image
      rw [hcc, hs]
      dsimp only
      rw [if_pos hfresh]
    exact ⟨hget cfg₁ hc, hget cfg₂ (by rw [hpath]; exact hc)⟩

/-- Witness for C10: two configurations differing in dither mode and all
enhancement factors serve the identical cached bitmap from a fresh entry. -/
theorem c10_cache_key_name_only_witness :
    get_processed_image cfgA stFresh "images/queue/photo.jpg" =
        .ok (bmpA, stFresh, true) ∧
      get_processed_image cfgB stFresh "images/queue/photo.jpg" =
        .ok (bmpA, stFresh, true) :=
  c10_cache_key_name_only.2.2 cfgA cfgB stFresh "images/queue/photo.jpg"
    ⟨20, bmpA⟩ ⟨10, some srcImgA⟩ rfl (by simp [stFresh]) (by simp [stFresh])
    (by norm_num)

end PictureFrame
